import Mathlib

/-!
Verification of the LLM batch-annotation pipeline of this repository
(`llm_yesno_batch.py` and `gemini_yesno_batch.py`) against its
natural-language specification.

The Python scripts are shallowly embedded: JSON values are an inductive
type, Python strings are Lean `String`s operated on through their
character lists, machine behaviour that the scripts rely on
(`json.loads`, `str.strip`, `str.find`, dict insertion order) is
modelled by executable Lean functions, and the run drivers become pure
functions from a configuration, a provider oracle and the list of input
records to the list of appended output records plus an optional fatal
error.  Provider network calls are abstracted as oracles
`Nat → String → Except String String` (attempt number and prompt in,
raw response text or a service error out); everything after the raw
text returns is modelled from the source.

Known deliberate abstractions, each harmless to the claims checked here:
* JSON numbers are `Int` or `ℚ` (the scripts only ever compare them with
  1 or truncate them); the non-standard `NaN`/`Infinity` literals that
  CPython json additionally accepts are not modelled.
* `str()` of floats, lists and dicts is not CPython-exact; the model
  agrees with CPython on the only property the scripts consult (whether
  the text strips to "1", which is false for these shapes).
* Error message texts are abbreviated; the scripts only test them for
  null / non-null.
-/

set_option maxHeartbeats 1000000
set_option maxRecDepth 8000

namespace YesNoBatch

/-- JSON values as produced by the Python `json` module: `null`, booleans,
integers, floats (modelled as rationals), strings, arrays and objects.
Objects are association lists in insertion order with unique keys, as a
Python dict is. -/
inductive JsonVal where
  | jnull
  | jbool (b : Bool)
  | jint (n : Int)
  | jfloat (q : ℚ)
  | jstr (s : String)
  | jarr (elems : List JsonVal)
  | jobj (fields : List (String × JsonVal))

/-- Lookup in a Python dict (first match; keys are unique by construction). -/
def objGet (fields : List (String × JsonVal)) (k : String) : Option JsonVal :=
  (fields.find? (fun p => p.1 == k)).map (fun p => p.2)

/-- Python dict insertion: replace the value in place when the key exists,
otherwise append at the end (insertion order is preserved). -/
def dictInsert (fields : List (String × JsonVal)) (k : String) (v : JsonVal) :
    List (String × JsonVal) :=
  match fields with
  | [] => [(k, v)]
  | (k0, v0) :: rest =>
      if k0 == k then (k, v) :: rest else (k0, v0) :: dictInsert rest k v

/-- The whitespace characters that Python `str.strip()` removes (ASCII part;
the scripts never see non-ASCII whitespace). -/
def pyIsSpace (c : Char) : Bool :=
  c == ' ' || c == '\t' || c == '\n' || c == '\r' || c == '\x0b' || c == '\x0c'

/-- Python `s.strip()`. -/
def pyStrip (s : String) : String :=
  ⟨((s.data.dropWhile pyIsSpace).reverse.dropWhile pyIsSpace).reverse⟩

/-- Python `s.strip("\n")` as used on the extracted article text. -/
def pyStripNl (s : String) : String :=
  ⟨((s.data.dropWhile (· == '\n')).reverse.dropWhile (· == '\n')).reverse⟩

/-- Python `s.find(c)` for a single-character needle, `none` for -1. -/
def pyFindChar (s : String) (c : Char) : Option Nat :=
  s.data.findIdx? (· == c)

/-- Python `s.rfind(c)` for a single-character needle, `none` for -1. -/
def pyRFindChar (s : String) (c : Char) : Option Nat :=
  (s.data.reverse.findIdx? (· == c)).map (fun i => s.data.length - 1 - i)

/-- Python slicing `s[i:j]` for `0 ≤ i ≤ j`. -/
def pySlice (s : String) (i j : Nat) : String :=
  ⟨(s.data.drop i).take (j - i)⟩

/-- One step of Python `s.split(sep, 1)` for a non-empty separator:
`some (before, after)` at the first occurrence, `none` when `sep` does not
occur in `s`. -/
def splitOnceAux (sep : List Char) : List Char → List Char → Option (List Char × List Char)
  | acc, [] => if sep.isPrefixOf ([] : List Char) then some (acc.reverse, []) else none
  | acc, c :: rest =>
      if sep.isPrefixOf (c :: rest) then some (acc.reverse, (c :: rest).drop sep.length)
      else splitOnceAux sep (c :: acc) rest

/-- Python `s.split(sep, 1)`: `some (head, tail)` when `sep` occurs, else `none`
(Python would return the one-element list `[s]`). -/
def pySplitOnce (s sep : String) : Option (String × String) :=
  (splitOnceAux sep.data [] s.data).map (fun p => (⟨p.1⟩, ⟨p.2⟩))

/-- Python `sep in s`. -/
def pyContains (s sep : String) : Bool :=
  (pySplitOnce s sep).isSome

/-- Python `int()` applied to a float: truncation toward zero. -/
def pytrunc (q : ℚ) : Int :=
  if q < 0 then -((-q).floor) else q.floor

/-- Python `str()` of a JSON value, as `gemini_yesno_batch.normalize_answers`
applies it to arbitrary answer values.  Scalar cases are CPython-exact; the
float/array/object texts are abstracted but, like CPython, never strip to the
string "1". -/
def pyStr : JsonVal → String
  | .jnull => "None"
  | .jbool true => "True"
  | .jbool false => "False"
  | .jint n => toString n
  | .jfloat q => toString q.num ++ (if q.den = 1 then ".0" else "/" ++ toString q.den)
  | .jstr s => s
  | .jarr _ => "[...]"
  | .jobj _ => "\x7b...\x7d"

/-! ### A model of `json.loads`

An executable RFC-8259 JSON parser.  It agrees with CPython `json.loads`
on: leading/trailing whitespace, the literals, the strict number grammar,
string escapes (including surrogate pairs; a *lone* surrogate, which Lean
strings cannot hold, becomes U+FFFD), rejection of unescaped control
characters, and last-wins duplicate object keys. -/

/-- Whitespace accepted between JSON tokens. -/
def jsonWs (c : Char) : Bool :=
  c == ' ' || c == '\t' || c == '\n' || c == '\r'

def skipWs (cs : List Char) : List Char := cs.dropWhile jsonWs

def hexVal (c : Char) : Option Nat :=
  if '0' ≤ c ∧ c ≤ '9' then some (c.toNat - 48)
  else if 'a' ≤ c ∧ c ≤ 'f' then some (c.toNat - 87)
  else if 'A' ≤ c ∧ c ≤ 'F' then some (c.toNat - 55)
  else none

def parseHex4 : List Char → Option (Nat × List Char)
  | a :: b :: c :: d :: rest => do
      let va ← hexVal a
      let vb ← hexVal b
      let vc ← hexVal c
      let vd ← hexVal d
      pure (((va * 16 + vb) * 16 + vc) * 16 + vd, rest)
  | _ => none

/-- Body of a JSON string after the opening quote; returns the decoded
characters and the rest of the input after the closing quote. -/
def parseJStrAux : Nat → List Char → List Char → Option (List Char × List Char)
  | 0, _, _ => none
  | _ + 1, _, [] => none
  | fuel + 1, acc, c :: rest =>
      if c == '"' then some (acc.reverse, rest)
      else if c == '\\' then
        match rest with
        | [] => none
        | e :: rest1 =>
          if e == '"' then parseJStrAux fuel ('"' :: acc) rest1
          else if e == '\\' then parseJStrAux fuel ('\\' :: acc) rest1
          else if e == '/' then parseJStrAux fuel ('/' :: acc) rest1
          else if e == 'b' then parseJStrAux fuel ('\x08' :: acc) rest1
          else if e == 'f' then parseJStrAux fuel ('\x0c' :: acc) rest1
          else if e == 'n' then parseJStrAux fuel ('\n' :: acc) rest1
          else if e == 'r' then parseJStrAux fuel ('\r' :: acc) rest1
          else if e == 't' then parseJStrAux fuel ('\t' :: acc) rest1
          else if e == 'u' then
            match parseHex4 rest1 with
            | none => none
            | some (n, rest2) =>
              if 0xD800 ≤ n ∧ n ≤ 0xDBFF then
                match rest2 with
                | '\\' :: 'u' :: rest3 =>
                  match parseHex4 rest3 with
                  | some (m, rest4) =>
                    if 0xDC00 ≤ m ∧ m ≤ 0xDFFF then
                      parseJStrAux fuel
                        (Char.ofNat (0x10000 + (n - 0xD800) * 0x400 + (m - 0xDC00)) :: acc) rest4
                    else parseJStrAux fuel ('�' :: acc) rest2
                  | none => parseJStrAux fuel ('�' :: acc) rest2
                | _ => parseJStrAux fuel ('�' :: acc) rest2
              else if 0xDC00 ≤ n ∧ n ≤ 0xDFFF then parseJStrAux fuel ('�' :: acc) rest2
              else parseJStrAux fuel (Char.ofNat n :: acc) rest2
          else none
      else if c.toNat < 0x20 then none
      else parseJStrAux fuel (c :: acc) rest

def digitsToNat (ds : List Char) : Nat :=
  ds.foldl (fun a c => a * 10 + (c.toNat - 48)) 0

/-- JSON number grammar: `-? (0 | [1-9][0-9]*) (. [0-9]+)? ([eE][+-]?[0-9]+)?`;
an integer literal parses to `jint`, anything with a fraction or exponent to
`jfloat`, as CPython json distinguishes `int` from `float`. -/
def parseNumber (cs : List Char) : Option (JsonVal × List Char) :=
  let (neg, cs1) := match cs with
    | '-' :: rest => (true, rest)
    | _ => (false, cs)
  let intPart : Option (List Char × List Char) :=
    match cs1 with
    | '0' :: rest => some (['0'], rest)
    | c :: rest =>
        if '1' ≤ c ∧ c ≤ '9' then some (c :: rest.takeWhile Char.isDigit, rest.dropWhile Char.isDigit)
        else none
    | [] => none
  match intPart with
  | none => none
  | some (ids, cs2) =>
    let (fracDigits, cs3) : List Char × List Char :=
      match cs2 with
      | '.' :: rest =>
          let ds := rest.takeWhile Char.isDigit
          if ds = [] then ([], cs2) else (ds, rest.dropWhile Char.isDigit)
      | _ => ([], cs2)
    if cs3 ≠ cs2 ∨ fracDigits = [] then
      -- either a valid fraction was consumed or there was none at all
      match cs3 with
      | e :: rest =>
        if e == 'e' || e == 'E' then
          let (esign, rest1) := match rest with
            | '+' :: r => ((1 : Int), r)
            | '-' :: r => ((-1 : Int), r)
            | _ => ((1 : Int), rest)
          let eds := rest1.takeWhile Char.isDigit
          if eds = [] then
            -- a bare exponent marker is not part of the number: CPython json
            -- stops the number before `e`, so fall through without an exponent
            some (mkNumber neg ids fracDigits (cs2 ≠ cs3) 0, cs3)
          else
            some (mkNumber neg ids fracDigits true ((esign * digitsToNat eds : Int)),
              rest1.dropWhile Char.isDigit)
        else some (mkNumber neg ids fracDigits (cs2 ≠ cs3) 0, cs3)
      | [] => some (mkNumber neg ids fracDigits (cs2 ≠ cs3) 0, cs3)
    else none
where
  /-- Assemble the numeric value: `isFloat` records whether a fraction or
  exponent was present. -/
  mkNumber (neg : Bool) (ids fracDigits : List Char) (isFloat : Bool) (exp : Int) : JsonVal :=
    let mag : Nat := digitsToNat (ids ++ fracDigits)
    let sgn : Int := if neg then -1 else 1
    if isFloat then
      .jfloat ((sgn * mag : Int) / (10 : ℚ) ^ (fracDigits.length : ℕ) * (10 : ℚ) ^ exp)
    else .jint (sgn * mag)

mutual

/-- One JSON value, fuel-bounded recursive descent. -/
def parseVal : Nat → List Char → Option (JsonVal × List Char)
  | 0, _ => none
  | fuel + 1, cs =>
    match skipWs cs with
    | [] => none
    | c :: rest =>
      if c == '"' then
        (parseJStrAux (rest.length + 1) [] rest).map (fun p => (.jstr ⟨p.1⟩, p.2))
      else if c == 't' then
        if ['r', 'u', 'e'].isPrefixOf rest then some (.jbool true, rest.drop 3) else none
      else if c == 'f' then
        if ['a', 'l', 's', 'e'].isPrefixOf rest then some (.jbool false, rest.drop 4) else none
      else if c == 'n' then
        if ['u', 'l', 'l'].isPrefixOf rest then some (.jnull, rest.drop 3) else none
      else if c == '[' then
        match skipWs rest with
        | ']' :: rest1 => some (.jarr [], rest1)
        | cs1 => parseArrTail fuel [] cs1
      else if c == '{' then
        match skipWs rest with
        | '}' :: rest1 => some (.jobj [], rest1)
        | cs1 => parseObjTail fuel [] cs1
      else parseNumber (c :: rest)

/-- Remaining items of a non-empty array. -/
def parseArrTail : Nat → List JsonVal → List Char → Option (JsonVal × List Char)
  | 0, _, _ => none
  | fuel + 1, acc, cs =>
    match parseVal fuel cs with
    | none => none
    | some (v, rest) =>
      match skipWs rest with
      | ',' :: rest1 => parseArrTail fuel (v :: acc) rest1
      | ']' :: rest1 => some (.jarr (v :: acc).reverse, rest1)
      | _ => none

/-- Remaining members of a non-empty object; duplicate keys are resolved
last-wins through `dictInsert`, as a Python dict does. -/
def parseObjTail : Nat → List (String × JsonVal) → List Char → Option (JsonVal × List Char)
  | 0, _, _ => none
  | fuel + 1, acc, cs =>
    match skipWs cs with
    | '"' :: rest =>
      match parseJStrAux (rest.length + 1) [] rest with
      | none => none
      | some (key, rest1) =>
        match skipWs rest1 with
        | ':' :: rest2 =>
          match parseVal fuel rest2 with
          | none => none
          | some (v, rest3) =>
            match skipWs rest3 with
            | ',' :: rest4 => parseObjTail fuel (dictInsert acc ⟨key⟩ v) rest4
            | '}' :: rest4 => some (.jobj (dictInsert acc ⟨key⟩ v), rest4)
            | _ => none
        | _ => none
    | _ => none

end

/-- Python `json.loads`: parse one value, then require only whitespace to the
end of the input. -/
def pyJsonLoads (s : String) : Except String JsonVal :=
  match parseVal (2 * s.data.length + 8) s.data with
  | some (v, rest) =>
      if skipWs rest = [] then .ok v else .error "JSONDecodeError: Extra data"
  | none => .error "JSONDecodeError: Expecting value"

/-! ### Question set (identical in both scripts) -/

/-- The fixed, ordered question list of `llm_yesno_batch.py` /
`gemini_yesno_batch.py` (`QUESTIONS`). -/
def QUESTIONS : List (String × String) := [
  ("A1", "Does the article suggest that some level of government has the ability to alleviate the problem?"),
  ("A2", "Does the article suggest that some level of the government is responsible for the problem?"),
  ("A3", "Does the article suggest solution(s) to the problem?"),
  ("A4", "Does the article make references to moral, religious or philosophical tenets?"),
  ("A5", "Does the article frame actions as good and / or evil, or compare the acceptability of the actions of different actors to one another?"),
  ("A6", "Does the article offer specific social prescriptions about how to behave?"),
  ("A7", "Does the article spesifically reference European, Western, Chinese, Confucian, Russian or any other types of traditional / civilizational value systems?"),
  ("A8", "Does the article portray Russia as a pro-active actor changing the world?"),
  ("A9", "Does the article portray Russia as a reactive actor trying to cope with the changing world?"),
  ("A10", "Does regional (multilateral) cooperation or the international community play a major in solving the central problem of the article?"),
  ("B1", "Does the story reflect disagreement between parties-individuals-groups-countries?"),
  ("B2", "Does the story refer to two sides or to more than two sides of the problem or issue?"),
  ("B3", "Does the conflict involve, affect or even threaten vital national interests of a conflict party?"),
  ("B4", "Is there a mention of financial losses or gains now or in the future?"),
  ("B5", "Is there a reference to economic consequences of pursuing or not pursuing a course of action?"),
  ("B6", "Does the article talk about a win-win situation or a shared economic benefit for both parties?"),
  ("B7", "Does the article set the welfare of humans, citizens or communities as a major goal for action?"),
  ("B8", "Does the article reference the questions of armscontrol, detente or peace mediation?"),
  ("B9", "Does the article talk about climate change or ecological issues as a central problem?"),
  ("B10", "Does the article talk about eradicating poverty, increasing education or other sustainable development as a central problem?")]

/-- `QIDS = [qid for qid, _ in QUESTIONS]`. -/
def QIDS : List String := QUESTIONS.map (fun q => q.1)

/-- A normalized response: a complete Answer Set in `QIDS` order plus a
justification string. -/
structure Norm where
  answers : List (String × Int)
  justification : String

/-- The all-zero Answer Set `{qid: 0 for qid in QIDS}`. -/
def zeroAnswers : List (String × Int) :=
  QIDS.map (fun qid => (qid, (0 : Int)))

/-- Python `d.get(qid, 0)` on an int-valued dict (used for chunk answers). -/
def ansGet (a : List (String × Int)) (qid : String) : Int :=
  ((a.find? (fun p => p.1 == qid)).map (fun p => p.2)).getD 0

/-! ### `llm_yesno_batch.py`: parsing and normalization -/

/-- `llm_yesno_batch.parse_json_strict` (lines 116-125): strip, try a direct
`json.loads`; on failure try again on the substring from the first `\x7b` to the
last `\x7d` when that region is non-degenerate, else re-raise the original
decode error. -/
def parse_json_strict (text : String) : Except String JsonVal :=
  let t := pyStrip text
  match pyJsonLoads t with
  | .ok v => .ok v
  | .error err =>
    match pyFindChar t '{', pyRFindChar t '}' with
    | some start, some stop =>
        if start < stop then pyJsonLoads (pySlice t start (stop + 1)) else .error err
    | _, _ => .error err

namespace LLM

/-- Per-value coercion inside `llm_yesno_batch.normalize_answers`
(lines 136-145): bools first (Python bool is an int subtype), then
`int(v) == 1` for numbers (truncation toward zero for floats), then
`v.strip() == "1"` for strings, 0 for everything else. -/
def coerceAnswer : JsonVal → Int
  | .jbool b => if b then 1 else 0
  | .jint n => if n = 1 then 1 else 0
  | .jfloat q => if pytrunc q = 1 then 1 else 0
  | .jstr s => if pyStrip s = "1" then 1 else 0
  | _ => 0

/-- `llm_yesno_batch.normalize_answers` (lines 127-150).  Raises (models as
`.error`) when the top level is not a dict, or `answers` or `justification`
is missing, or `answers` is not a dict; otherwise coerces each code and
strips the justification, substituting "" when it is not a string. -/
def normalize_answers (obj : JsonVal) : Except String Norm :=
  match obj with
  | .jobj kvs =>
    if (objGet kvs "answers").isNone || (objGet kvs "justification").isNone then
      .error "ValueError: Response must contain answers and justification."
    else
      match objGet kvs "answers" with
      | some (.jobj ans) =>
          let fixed := QIDS.map (fun qid =>
            (qid, coerceAnswer ((objGet ans qid).getD (.jint 0))))
          let just := match objGet kvs "justification" with
            | some (.jstr s) => pyStrip s
            | _ => ""
          .ok ⟨fixed, just⟩
      | _ => .error "ValueError: answers must be an object."
  | _ => .error "ValueError: Response must contain answers and justification."

end LLM

/-! ### `gemini_yesno_batch.py`: normalization -/

namespace Gem

/-- Python `v == 1` for a JSON value (`True == 1` holds in Python; floats
compare numerically). -/
def pyEqOne : JsonVal → Bool
  | .jint n => n == 1
  | .jfloat q => q == 1
  | .jbool b => b
  | _ => false

/-- Per-value coercion inside `gemini_yesno_batch.normalize_answers`
(line 147): `1 if v == 1 or v is True or str(v).strip() == "1" else 0`. -/
def coerceAnswer (v : JsonVal) : Int :=
  if pyEqOne v || (match v with | .jbool true => true | _ => false)
      || pyStrip (pyStr v) == "1" then 1 else 0

/-- `gemini_yesno_batch.normalize_answers` (lines 139-151): total; starts from
the all-zero Answer Set and the empty justification and overwrites whatever
the (dict-shaped) input provides.  It never raises. -/
def normalize_answers (obj : JsonVal) : Norm :=
  match obj with
  | .jobj kvs =>
    let answers := match objGet kvs "answers" with
      | some (.jobj ans) => QIDS.map (fun qid =>
          (qid, coerceAnswer ((objGet ans qid).getD (.jint 0))))
      | _ => zeroAnswers
    let just := match objGet kvs "justification" with
      | some (.jstr s) => pyStrip s
      | _ => ""
    ⟨answers, just⟩
  | _ => ⟨zeroAnswers, ""⟩

end Gem

/-! ### `llm_yesno_batch.py`: prompt building, chunking, the chunked
gemini adapter -/

/-- `q_lines` as rendered by both prompt builders. -/
def qLinesOfQuestions : String :=
  String.intercalate "\n" (QUESTIONS.map (fun q => q.1 ++ ": " ++ q.2))

/-- The fixed tail of `build_user_prompt` after the question lines. -/
def strictJsonTail : String :=
  "\n\nReturn STRICT JSON in exactly this shape (no extra keys, no markdown, no commentary outside JSON):\n\x7b\n  \"answers\": \x7b\n    \"A1\": 0, \"A2\": 0, \"A3\": 0, \"A4\": 0, \"A5\": 0,\n    \"A6\": 0, \"A7\": 0, \"A8\": 0, \"A9\": 0, \"A10\": 0,\n    \"B1\": 0, \"B2\": 0, \"B3\": 0, \"B4\": 0, \"B5\": 0,\n    \"B6\": 0, \"B7\": 0, \"B8\": 0, \"B9\": 0, \"B10\": 0\n  \x7d,\n  \"justification\": \"1-2 paragraphs explaining evidence from the article text\"\n\x7d\n"

/-- `llm_yesno_batch.build_user_prompt` (lines 60-78). -/
def build_user_prompt (articleText : String) : String :=
  "ARTICLE TEXT (analyze carefully):\n\"\"\"\n" ++ articleText ++
    "\n\"\"\"\n\nQUESTIONS:\n" ++ qLinesOfQuestions ++ strictJsonTail

/-- Character chunking worker for `_chunk_text_by_chars`, written as a
structural recursion on a fuel that the wrapper sets to the text length
(every chunk consumes at least one character when `maxChars ≥ 1`, so the
fuel never runs out on a reachable input).  The Python loop does not
terminate when `max_chars = 0`; that unreachable configuration (the only
call site passes 12000) is modelled as the empty list. -/
def chunkChars (maxChars : Nat) : Nat → List Char → List (List Char)
  | _, [] => []
  | 0, _ :: _ => []
  | fuel + 1, c :: cs =>
      if maxChars = 0 then []
      else (c :: cs).take maxChars :: chunkChars maxChars fuel ((c :: cs).drop maxChars)

/-- `llm_yesno_batch._chunk_text_by_chars` (lines 193-205). -/
def chunk_text_by_chars (text : String) (maxChars : Nat) : List String :=
  (chunkChars maxChars text.data.length text.data).map (fun cs => (⟨cs⟩ : String))

/-- The marker before the article text inside the prompt
(`call_gemini`, line 221). -/
def markerStart : String := "ARTICLE TEXT (analyze carefully):\n\"\"\""

/-- The marker after the article text inside the prompt
(`call_gemini`, line 222). -/
def markerEnd : String := "\"\"\"\n\nQUESTIONS:"

/-- The per-chunk prompt of `call_gemini` (lines 250-258); `qLines` is
everything after `"QUESTIONS:\n"` in the full prompt, tail included. -/
def chunkPrompt (ci total : Nat) (ch qLines : String) : String :=
  "You are analyzing CHUNK " ++ toString ci ++ "/" ++ toString total ++
    " of the same article.\nOnly use this chunk to answer. If the answer is not clearly supported in this chunk, output 0.\n\nCHUNK TEXT:\n\"\"\"\n" ++
    ch ++ "\n\"\"\"\n\nQUESTIONS:\n" ++ qLines ++ "\n"

/-- Four lowercase hex digits, as CPython json writes control escapes. -/
def hex4 (n : Nat) : String :=
  let d := fun k => "0123456789abcdef".data.getD k '0'
  ⟨[d (n / 4096 % 16), d (n / 256 % 16), d (n / 16 % 16), d (n % 16)]⟩

/-- One character under `json.dumps(..., ensure_ascii=False)`. -/
def pyJsonEscape (c : Char) : String :=
  if c = '"' then "\\\""
  else if c = '\\' then "\\\\"
  else if c = '\n' then "\\n"
  else if c = '\r' then "\\r"
  else if c = '\t' then "\\t"
  else if c = '\x08' then "\\b"
  else if c = '\x0c' then "\\f"
  else if c.toNat < 0x20 then "\\u" ++ hex4 c.toNat
  else String.singleton c

/-- A string literal under `json.dumps(..., ensure_ascii=False)`. -/
def pyDumpsStr (s : String) : String :=
  "\"" ++ String.join (s.data.map pyJsonEscape) ++ "\""

/-- `json.dumps` of an int-valued dict with the default separators. -/
def dumpsAnswersObj (ans : List (String × Int)) : String :=
  "\x7b" ++ String.intercalate ", "
    (ans.map (fun p => pyDumpsStr p.1 ++ ": " ++ toString p.2)) ++ "\x7d"

/-- `json.dumps(\x7b"answers": final, "justification": final_just\x7d,
ensure_ascii=False)` as `call_gemini` returns it (line 317). -/
def dumpsResult (ans : List (String × Int)) (just : String) : String :=
  "\x7b\"answers\": " ++ dumpsAnswersObj ans ++ ", \"justification\": " ++
    pyDumpsStr just ++ "\x7d"

/-- Aggregation across chunks (`call_gemini`, lines 304-315): each code is 1
when any chunk answered 1 (the dict comprehension over the distinct `QIDS`
plus per-code update is written directly as the resulting map); the final
justification joins the first two non-empty chunk justifications. -/
def aggregateChunks (chunkAnswers : List (List (String × Int)))
    (chunkJusts : List String) : List (String × Int) × String :=
  let final := QIDS.map (fun qid =>
    (qid, if chunkAnswers.any (fun a => ansGet a qid == 1) then (1 : Int) else 0))
  let justParts := chunkJusts.filter (fun j => j ≠ "")
  let justParts := if justParts.length > 2 then justParts.take 2 else justParts
  (final, pyStrip (String.intercalate "\n\n" justParts))

/-- The per-chunk loop of `call_gemini` (lines 249-302).  `oracle ci prompt`
abstracts one `generate_content` call for chunk `ci` (the extracted response
text, `resp.text` or the joined candidate parts); an empty stripped text
raises, then the raw text is parsed strictly and normalized; any failure
propagates out of the adapter. -/
def processChunks (oracle : Nat → String → Except String String) (total : Nat)
    (qLines : String) :
    Nat → List String → Except String (List (List (String × Int)) × List String)
  | _, [] => .ok ([], [])
  | ci, ch :: rest =>
    match oracle ci (chunkPrompt ci total ch qLines) with
    | .error e => .error e
    | .ok raw0 =>
      let raw := pyStrip raw0
      if raw = "" then
        .error "RuntimeError: Gemini returned empty text for a chunk (see diagnostics above)."
      else
        match parse_json_strict raw with
        | .error e => .error e
        | .ok obj =>
          match LLM.normalize_answers obj with
          | .error e => .error e
          | .ok norm =>
            match processChunks oracle total qLines (ci + 1) rest with
            | .error e => .error e
            | .ok (anss, justs) =>
                .ok (norm.answers :: anss, norm.justification :: justs)

/-- `llm_yesno_batch.call_gemini` (lines 208-317): re-extract the article text
from the prompt, chunk it, annotate every chunk, aggregate, and return the
aggregate re-encoded as a JSON string. -/
def call_gemini (oracle : Nat → String → Except String String)
    (userPrompt : String) : Except String String :=
  if ¬ (pyContains userPrompt markerStart ∧ pyContains userPrompt markerEnd) then
    .error "RuntimeError: Internal: cannot locate article text in prompt for chunking."
  else
    let afterStart := ((pySplitOnce userPrompt markerStart).map (fun p => p.2)).getD ""
    let beforeEnd := ((pySplitOnce afterStart markerEnd).map (fun p => p.1)).getD afterStart
    let articleText := pyStripNl beforeEnd
    let chunks := chunk_text_by_chars articleText 12000
    match pySplitOnce userPrompt "QUESTIONS:\n" with
    | none => .error "IndexError: list index out of range"
    | some (_, qLines) =>
      match processChunks oracle chunks.length qLines 1 chunks with
      | .error e => .error e
      | .ok (chunkAnswers, chunkJusts) =>
        let p := aggregateChunks chunkAnswers chunkJusts
        .ok (dumpsResult p.1 p.2)

/-! ### Run drivers

The drivers become pure functions.  A provider oracle
`Nat → String → Except String String` abstracts one network call (attempt
number and prompt in; raw response text, or the message of the exception the
SDK raised, out).  The output JSONL file is the list of written rows (each a
Python dict, i.e. an ordered association list); a run returns the rows it
appends plus `some msg` when it aborts with an uncaught exception. -/

/-- Python truthiness of a JSON value. -/
def pyTruthy : JsonVal → Bool
  | .jnull => false
  | .jbool b => b
  | .jint n => n != 0
  | .jfloat q => q != 0
  | .jstr s => s != ""
  | .jarr xs => !xs.isEmpty
  | .jobj kvs => !kvs.isEmpty

/-- `str(row.get(id_field, "")).strip()` (llm line 365 / gemini line 230). -/
def getArticleId (idField : String) (row : List (String × JsonVal)) : String :=
  pyStrip (pyStr ((objGet row idField).getD (.jstr "")))

/-- `row.get(text_field, "")`, stringified when not already a string
(llm lines 366-368 / gemini lines 237-239). -/
def getArticleText (textField : String) (row : List (String × JsonVal)) : String :=
  match objGet row textField with
  | some (.jstr s) => s
  | some v => pyStr v
  | none => ""

/-- The fatal message raised for a missing/empty id
(llm line 371 / gemini line 232); the field name is interpolated. -/
def missingIdMsg (idField : String) : String :=
  "ValueError: Missing " ++ idField ++ " in a row; cannot safely map outputs."

/-- Result of one retry loop. -/
structure AttemptResult where
  parsed : Option Norm
  lastErr : Option String
  raw : Option String
  calls : Nat

namespace LLM

/-- `llm_yesno_batch.load_done_ids` (lines 97-112): every row of the existing
output that has a `custom_id` key contributes `str` of its value. -/
def load_done_ids (outRows : List (List (String × JsonVal))) : List String :=
  outRows.filterMap (fun row => (objGet row "custom_id").map pyStr)

/-- `llm_yesno_batch.parse_id_list` (lines 331-336): split on commas, strip,
drop empties (the Python set is modelled as a list queried by membership). -/
def parse_id_list (s : String) : List String :=
  let s := pyStrip s
  if s = "" then []
  else ((s.splitOn ",").map pyStrip).filter (fun p => p ≠ "")

/-- The CLI arguments of `llm_yesno_batch.main` that the processing loop
reads (`skipIds`/`onlyIds` hold the results of `parse_id_list`). -/
structure Args where
  provider : String
  modelName : String
  idField : String
  textField : String
  alsoStore : String
  maxRetries : Nat
  resume : Bool
  skipIds : List String
  onlyIds : List String
  dryRun : Bool

/-- The skip conditions of the loop body (lines 373-378), in source order:
an `only` list that misses the id, the `skip` list, and the resume done-set. -/
def skips (args : Args) (done : List String) (articleId : String) : Bool :=
  (!args.onlyIds.isEmpty && !args.onlyIds.contains articleId) ||
    args.skipIds.contains articleId ||
    (args.resume && done.contains articleId)

/-- The retry loop (lines 387-406): up to `max_retries` provider calls; a
successful call is parsed strictly and normalized; any exception becomes the
new `last_err` and the loop continues; success clears `last_err` and stops.
`raw` keeps the last raw text that a provider call returned, `calls` counts
provider invocations. -/
def attemptLoop (callProv : Nat → String → Except String String) (prompt : String) :
    Nat → Nat → Option String → Option String → AttemptResult
  | _, 0, raw, lastErr => ⟨none, lastErr, raw, 0⟩
  | attempt, n + 1, raw, _ =>
    match callProv attempt prompt with
    | .error e =>
        let r := attemptLoop callProv prompt (attempt + 1) n raw (some e)
        ⟨r.parsed, r.lastErr, r.raw, r.calls + 1⟩
    | .ok rawText =>
      match parse_json_strict rawText >>= normalize_answers with
      | .ok parsed => ⟨some parsed, none, some rawText, 1⟩
      | .error e =>
          let r := attemptLoop callProv prompt (attempt + 1) n (some rawText) (some e)
          ⟨r.parsed, r.lastErr, r.raw, r.calls + 1⟩

/-- The output row written for one record (lines 408-418), keys in insertion
order; the optional `also_store` copy is a dict insertion at the end. -/
def outRow (args : Args) (articleId : String) (row : List (String × JsonVal))
    (r : AttemptResult) : List (String × JsonVal) :=
  let base : List (String × JsonVal) :=
    [("custom_id", .jstr articleId),
     ("provider", .jstr args.provider),
     ("model", .jstr args.modelName),
     ("raw", match r.raw with | some s => .jstr s | none => .jnull),
     ("answers", .jobj (((match r.parsed with
        | some p => p.answers
        | none => zeroAnswers : List (String × Int))).map
          (fun p => (p.1, JsonVal.jint p.2)))),
     ("justification", .jstr (match r.parsed with | some p => p.justification | none => "")),
     ("error", match r.lastErr with | some e => .jstr e | none => .jnull)]
  if args.alsoStore ≠ "" then
    dictInsert base args.alsoStore ((objGet row args.alsoStore).getD (.jstr ""))
  else base

/-- The record loop of `llm_yesno_batch.main` (lines 364-422) over already
idempotently parsed input rows; returns the appended rows and `some msg` on
the fatal missing-id abort. -/
def runAux (args : Args) (callProv : Nat → String → Except String String)
    (done : List String) :
    List (List (String × JsonVal)) → List (List (String × JsonVal)) × Option String
  | [] => ([], none)
  | row :: rest =>
    let articleId := getArticleId args.idField row
    if articleId = "" then ([], some (missingIdMsg args.idField))
    else if skips args done articleId then runAux args callProv done rest
    else if args.dryRun then runAux args callProv done rest
    else
      let prompt := build_user_prompt (getArticleText args.textField row)
      let r := attemptLoop callProv prompt 1 args.maxRetries none none
      let out := outRow args articleId row r
      let tail := runAux args callProv done rest
      (out :: tail.1, tail.2)

/-- `llm_yesno_batch.main` without the argument parsing and file plumbing:
the done-set is loaded from the existing output exactly when `resume` is set,
then the loop runs.  The output file afterwards is
`existingOut ++ (run ...).1`. -/
def run (args : Args) (callProv : Nat → String → Except String String)
    (existingOut rows : List (List (String × JsonVal))) :
    List (List (String × JsonVal)) × Option String :=
  runAux args callProv (if args.resume then load_done_ids existingOut else []) rows

end LLM

namespace Gem

/-- `gemini_yesno_batch.load_done_ids` (lines 84-100): unlike the llm variant
it keeps only truthy `custom_id` values. -/
def load_done_ids (outRows : List (List (String × JsonVal))) : List String :=
  outRows.filterMap (fun row =>
    match objGet row "custom_id" with
    | some v => if pyTruthy v then some (pyStr v) else none
    | none => none)

/-- The CLI arguments of `gemini_yesno_batch.main` that the loop reads
(no skip/only lists, provider fixed to "gemini"). -/
structure Args where
  modelName : String
  idField : String
  textField : String
  alsoStore : String
  maxRetries : Nat
  resume : Bool
  dryRun : Bool

/-- `gemini_yesno_batch.build_prompt` (lines 103-112). -/
def build_prompt (articleText : String) : String :=
  "ARTICLE TEXT:\n\"\"\"\n" ++ articleText ++ "\n\"\"\"\n\nQUESTIONS:\n" ++
    qLinesOfQuestions ++ "\n\nReturn JSON only.\n"

/-- `gemini_yesno_batch.call_gemini` (lines 154-201) on top of the oracle:
the structured-output schema is service-side, so the model only adds the
empty-text check on the returned text. -/
def callService (oracle : Nat → String → Except String String) (attempt : Nat)
    (prompt : String) : Except String String :=
  match oracle attempt prompt with
  | .error e => .error e
  | .ok t =>
    let t := pyStrip t
    if t = "" then
      .error "RuntimeError: Gemini returned empty text (possibly safety blocked)."
    else .ok t

/-- The retry loop (lines 252-268): a raw text is parsed with a plain
`json.loads` (no brace fallback) and normalized by the total normalizer. -/
def attemptLoop (oracle : Nat → String → Except String String) (prompt : String) :
    Nat → Nat → Option String → AttemptResult
  | _, 0, lastErr => ⟨none, lastErr, none, 0⟩
  | attempt, n + 1, _ =>
    match callService oracle attempt prompt with
    | .error e =>
        let r := attemptLoop oracle prompt (attempt + 1) n (some e)
        ⟨r.parsed, r.lastErr, r.raw, r.calls + 1⟩
    | .ok rawText =>
      match pyJsonLoads rawText with
      | .ok obj => ⟨some (normalize_answers obj), none, some rawText, 1⟩
      | .error e =>
          let r := attemptLoop oracle prompt (attempt + 1) n (some e)
          ⟨r.parsed, r.lastErr, r.raw, r.calls + 1⟩

/-- The output row (lines 270-280): like the llm variant but with no `raw`
key and the provider hard-wired to "gemini". -/
def outRow (args : Args) (articleId : String) (row : List (String × JsonVal))
    (r : AttemptResult) : List (String × JsonVal) :=
  let base : List (String × JsonVal) :=
    [("custom_id", .jstr articleId),
     ("provider", .jstr "gemini"),
     ("model", .jstr args.modelName),
     ("answers", .jobj (((match r.parsed with
        | some p => p.answers
        | none => zeroAnswers : List (String × Int))).map
          (fun p => (p.1, JsonVal.jint p.2)))),
     ("justification", .jstr (match r.parsed with | some p => p.justification | none => "")),
     ("error", match r.lastErr with | some e => .jstr e | none => .jnull)]
  if args.alsoStore ≠ "" then
    dictInsert base args.alsoStore ((objGet row args.alsoStore).getD (.jstr ""))
  else base

/-- The record loop of `gemini_yesno_batch.main` (lines 229-284). -/
def runAux (args : Args) (oracle : Nat → String → Except String String)
    (done : List String) :
    List (List (String × JsonVal)) → List (List (String × JsonVal)) × Option String
  | [] => ([], none)
  | row :: rest =>
    let articleId := getArticleId args.idField row
    if articleId = "" then ([], some (missingIdMsg args.idField))
    else if args.resume && done.contains articleId then runAux args oracle done rest
    else if args.dryRun then runAux args oracle done rest
    else
      let prompt := build_prompt (getArticleText args.textField row)
      let r := attemptLoop oracle prompt 1 args.maxRetries none
      let out := outRow args articleId row r
      let tail := runAux args oracle done rest
      (out :: tail.1, tail.2)

/-- `gemini_yesno_batch.main` without argument parsing and file plumbing. -/
def run (args : Args) (oracle : Nat → String → Except String String)
    (existingOut rows : List (List (String × JsonVal))) :
    List (List (String × JsonVal)) × Option String :=
  runAux args oracle (if args.resume then load_done_ids existingOut else []) rows

end Gem

/-! ### Shared lemmas -/

theorem ansGet_cons (k : String) (v : Int) (rest : List (String × Int)) (qid : String) :
    ansGet ((k, v) :: rest) qid = if k == qid then v else ansGet rest qid := by
  simp only [ansGet, List.find?]
  by_cases h : (k == qid) <;> simp [h]

theorem ansGet_map_of_mem (l : List String) (f : String → Int) (qid : String) (h : qid ∈ l) :
    ansGet (l.map (fun q => (q, f q))) qid = f qid := by
  induction l with
  | nil => simp at h
  | cons a t ih =>
    rw [List.map_cons, ansGet_cons]
    by_cases hq : a = qid
    · simp [hq]
    · have hb : (a == qid) = false := beq_eq_false_iff_ne.mpr hq
      simp only [hb, Bool.false_eq_true, if_false]
      exact ih (List.mem_of_ne_of_mem (fun e => hq e.symm) h)

theorem objGet_cons (k : String) (v : JsonVal) (rest : List (String × JsonVal)) (key : String) :
    objGet ((k, v) :: rest) key = if k == key then some v else objGet rest key := by
  simp only [objGet, List.find?]
  by_cases h : (k == key) <;> simp [h]

/-- Lookup of a key different from the inserted one is unchanged. -/
theorem objGet_dictInsert_ne (l : List (String × JsonVal)) (k : String) (v : JsonVal)
    (key : String) (h : key ≠ k) : objGet (dictInsert l k v) key = objGet l key := by
  induction l with
  | nil =>
    simp only [dictInsert, objGet, List.find?]
    have : (k == key) = false := beq_eq_false_iff_ne.mpr (fun e => h e.symm)
    simp [this]
  | cons p rest ih =>
    obtain ⟨k0, v0⟩ := p
    simp only [dictInsert]
    by_cases h0 : (k0 == k)
    · rw [if_pos h0, objGet_cons, objGet_cons]
      have hk0 : k0 = k := by simpa using h0
      have h1 : (k == key) = false := beq_eq_false_iff_ne.mpr (fun e => h e.symm)
      have h2 : (k0 == key) = false := beq_eq_false_iff_ne.mpr (fun e => h (hk0 ▸ e).symm)
      simp [h1, h2]
    · rw [if_neg h0, objGet_cons, objGet_cons, ih]

/-- Inserting a fresh key appends it to the key list. -/
theorem keys_dictInsert_not_mem (l : List (String × JsonVal)) (k : String) (v : JsonVal)
    (h : k ∉ l.map Prod.fst) :
    (dictInsert l k v).map Prod.fst = l.map Prod.fst ++ [k] := by
  induction l with
  | nil => simp [dictInsert]
  | cons p rest ih =>
    obtain ⟨k0, v0⟩ := p
    simp only [List.map_cons, List.mem_cons] at h
    push_neg at h
    simp only [dictInsert]
    have h0 : (k0 == k) = false := beq_eq_false_iff_ne.mpr (fun e => h.1 e.symm)
    rw [if_neg (by simp [h0])]
    simp only [List.map_cons, List.cons_append, List.cons.injEq]
    exact ⟨trivial, ih h.2⟩

/-! #### Decimal representations: no whitespace, and "1" only at 1 -/

theorem digitChar_isDigit (k : Nat) (h : k < 10) : (Nat.digitChar k).isDigit = true := by
  interval_cases k <;> decide

theorem mem_toDigitsCore_ten (f : Nat) :
    ∀ (n : Nat) (l : List Char) (c : Char), c ∈ Nat.toDigitsCore 10 f n l →
      c ∈ l ∨ c.isDigit = true := by
  induction f with
  | zero => intro n l c hc; exact Or.inl hc
  | succ f ih =>
    intro n l c hc
    simp only [Nat.toDigitsCore] at hc
    by_cases h0 : n / 10 = 0
    · rw [if_pos h0] at hc
      rcases List.mem_cons.mp hc with h1 | h1
      · exact Or.inr (h1 ▸ digitChar_isDigit _ (Nat.mod_lt _ (by norm_num)))
      · exact Or.inl h1
    · rw [if_neg h0] at hc
      rcases ih _ _ _ hc with h1 | h1
      · rcases List.mem_cons.mp h1 with h2 | h2
        · exact Or.inr (h2 ▸ digitChar_isDigit _ (Nat.mod_lt _ (by norm_num)))
        · exact Or.inl h2
      · exact Or.inr h1

theorem toDigitsCore_ten_unfold (f n : Nat) (l : List Char) :
    Nat.toDigitsCore 10 (f + 1) n l =
      if n / 10 = 0 then (n % 10).digitChar :: l
      else Nat.toDigitsCore 10 f (n / 10) ((n % 10).digitChar :: l) := rfl

theorem toDigitsCore_ten_len :
    ∀ (f n : Nat) (l : List Char), f ≠ 0 →
      l.length + 1 ≤ (Nat.toDigitsCore 10 f n l).length := by
  intro f
  induction f with
  | zero => intro n l h; exact absurd rfl h
  | succ f ih =>
    intro n l _
    rw [toDigitsCore_ten_unfold]
    by_cases h0 : n / 10 = 0
    · rw [if_pos h0]; simp
    · rw [if_neg h0]
      by_cases hf : f = 0
      · subst hf
        show l.length + 1 ≤ ((n % 10).digitChar :: l).length
        simp
      · have h1 := ih (n / 10) ((n % 10).digitChar :: l) hf
        simp only [List.length_cons] at h1
        omega

theorem natRepr_chars (n : Nat) : ∀ c ∈ (Nat.repr n).data, c.isDigit = true := by
  intro c hc
  have h : c ∈ Nat.toDigitsCore 10 (n + 1) n [] := by
    simpa [Nat.repr, Nat.toDigits, List.asString] using hc
  rcases mem_toDigitsCore_ten _ _ _ _ h with h1 | h1
  · simp at h1
  · exact h1

theorem natRepr_length_pos (n : Nat) : 1 ≤ (Nat.repr n).length := by
  have h := toDigitsCore_ten_len (n + 1) n [] (by omega)
  simpa [Nat.repr, Nat.toDigits, List.asString, String.length] using h

theorem natRepr_length_ge_two (m : Nat) (h : 10 ≤ m) : 2 ≤ (Nat.repr m).length := by
  have h0 : m / 10 ≠ 0 := by
    intro hc
    exact absurd (Nat.div_eq_zero_iff (by norm_num) |>.mp hc) (by omega)
  have hlen := toDigitsCore_ten_len m (m / 10) [(m % 10).digitChar] (by omega)
  show 2 ≤ (Nat.toDigitsCore 10 (m + 1) m []).length
  rw [toDigitsCore_ten_unfold, if_neg h0]
  simpa using hlen

theorem natRepr_eq_one_iff (m : Nat) : Nat.repr m = "1" ↔ m = 1 := by
  constructor
  · intro h
    by_cases h10 : m < 10
    · interval_cases m <;> first | rfl | exact absurd h (by decide)
    · exfalso
      have h2 := natRepr_length_ge_two m (by omega)
      rw [h] at h2
      exact absurd h2 (by decide)
  · rintro rfl; rfl

theorem intToString_eq_repr (n : Int) : toString n = Int.repr n := rfl

theorem intToString_chars (n : Int) :
    ∀ c ∈ (toString n).data, c.isDigit = true ∨ c = '-' := by
  rw [intToString_eq_repr]
  cases n with
  | ofNat m => exact fun c hc => Or.inl (natRepr_chars m c hc)
  | negSucc m =>
    intro c hc
    have hdata : (Int.repr (.negSucc m)).data = '-' :: (Nat.repr (m + 1)).data := by
      show (("-" : String) ++ Nat.repr (m + 1)).data = _
      simp [String.data_append]
    rw [hdata] at hc
    rcases List.mem_cons.mp hc with h1 | h1
    · exact Or.inr h1
    · exact Or.inl (natRepr_chars _ c h1)

theorem intToString_eq_one_iff (n : Int) : toString n = "1" ↔ n = 1 := by
  rw [intToString_eq_repr]
  cases n with
  | ofNat m =>
    show Nat.repr m = "1" ↔ _
    rw [natRepr_eq_one_iff]
    constructor
    · rintro rfl; rfl
    · intro h; exact_mod_cast congrArg Int.toNat h
  | negSucc m =>
    constructor
    · intro h
      exfalso
      have hdata : (Int.repr (.negSucc m)).data = '-' :: (Nat.repr (m + 1)).data := by
        show (("-" : String) ++ Nat.repr (m + 1)).data = _
        simp [String.data_append]
      have h2 := congrArg String.data h
      rw [hdata] at h2
      exact absurd (List.head_eq_of_cons_eq h2) (by decide)
    · intro h
      have h2 := congrArg Int.toNat h
      simp at h2

theorem isDigit_not_space (c : Char) (h : c.isDigit = true) : pyIsSpace c = false := by
  by_contra hs
  rw [Bool.not_eq_false] at hs
  simp only [pyIsSpace, Bool.or_eq_true, beq_iff_eq] at hs
  rcases hs with ((((rfl | rfl) | rfl) | rfl) | rfl) | rfl <;> exact absurd h (by decide)

theorem dropWhile_eq_self_of {α : Type} (p : α → Bool) (l : List α)
    (h : ∀ c ∈ l, p c = false) : l.dropWhile p = l := by
  cases l with
  | nil => rfl
  | cons a t => simp [List.dropWhile_cons, h a (by simp)]

theorem pyStrip_eq_self (s : String) (h : ∀ c ∈ s.data, pyIsSpace c = false) :
    pyStrip s = s := by
  show (⟨((s.data.dropWhile pyIsSpace).reverse.dropWhile pyIsSpace).reverse⟩ : String) = s
  rw [dropWhile_eq_self_of _ _ h,
    dropWhile_eq_self_of _ _ (fun c hc => h c (List.mem_reverse.mp hc)),
    List.reverse_reverse]

theorem pyStrip_intToString (n : Int) : pyStrip (toString n) = toString n :=
  pyStrip_eq_self _ (fun c hc => by
    rcases intToString_chars n c hc with h | h
    · exact isDigit_not_space c h
    · subst h; rfl)

theorem pyStr_jfloat_chars (q : ℚ) :
    ∀ c ∈ (pyStr (.jfloat q)).data, pyIsSpace c = false := by
  intro c hc
  simp only [pyStr] at hc
  rw [String.data_append] at hc
  rcases List.mem_append.mp hc with h1 | h1
  · rcases intToString_chars q.num c h1 with h | h
    · exact isDigit_not_space c h
    · subst h; rfl
  · by_cases hd : q.den = 1
    · rw [if_pos hd] at h1
      have hdata : ((".0" : String)).data = ['.', '0'] := rfl
      rw [hdata] at h1
      rcases List.mem_cons.mp h1 with rfl | h2
      · rfl
      · rcases List.mem_cons.mp h2 with rfl | h3
        · rfl
        · simp at h3
    · rw [if_neg hd, String.data_append] at h1
      rcases List.mem_append.mp h1 with h2 | h2
      · have hdata : (("/" : String)).data = ['/'] := rfl
        rw [hdata] at h2
        rcases List.mem_cons.mp h2 with rfl | h3
        · rfl
        · simp at h3
      · rcases intToString_chars (q.den : Int) c h2 with h | h
        · exact isDigit_not_space c h
        · subst h; rfl

theorem intToString_length_pos (n : Int) : 1 ≤ (toString n).length := by
  rw [intToString_eq_repr]
  cases n with
  | ofNat m => exact natRepr_length_pos m
  | negSucc m =>
    show 1 ≤ (("-" : String) ++ Nat.repr (m + 1)).length
    rw [String.length_append]
    have h1 : ("-" : String).length = 1 := rfl
    have h2 := natRepr_length_pos (m + 1)
    omega

theorem pyStrip_pyStr_jfloat_ne_one (q : ℚ) : pyStrip (pyStr (.jfloat q)) ≠ "1" := by
  rw [pyStrip_eq_self _ (pyStr_jfloat_chars q)]
  intro h
  have hlen := congrArg String.length h
  simp only [pyStr, String.length_append] at hlen
  have h1 := intToString_length_pos q.num
  by_cases hd : q.den = 1
  · rw [if_pos hd] at hlen
    have : ("1" : String).length = 1 := rfl
    rw [this] at hlen
    have : (".0" : String).length = 2 := rfl
    omega
  · rw [if_neg hd, String.length_append] at hlen
    have h2 := intToString_length_pos (q.den : Int)
    have : ("1" : String).length = 1 := rfl
    rw [this] at hlen
    have : ("/" : String).length = 1 := rfl
    omega

/-- `QIDS` spelt out. -/
theorem QIDS_eq :
    QIDS = ["A1", "A2", "A3", "A4", "A5", "A6", "A7", "A8", "A9", "A10",
            "B1", "B2", "B3", "B4", "B5", "B6", "B7", "B8", "B9", "B10"] := by
  rfl

/-! ### Claim C2: answer-value coercion -/

/-- The coercion rule exactly as the specification states it (spec-side
definition, for comparison with the source-derived ones): 1 for boolean
true, the number 1, or a string trimming to "1"; 0 for everything else. -/
def specCoerceValue : JsonVal → Int
  | .jbool true => 1
  | .jint n => if n = 1 then 1 else 0
  | .jfloat q => if q = 1 then 1 else 0
  | .jstr s => if pyStrip s = "1" then 1 else 0
  | _ => 0

/-- C2, counterexample: the claim maps the numeric value 1.7 to 0, but the
`llm_yesno_batch` normalizer truncates floats (`int(v) == 1`), so a response
answering `\x7b"A1": 1.7\x7d` (the float 17/10) normalizes A1 to 1, not 0. -/
theorem claim_C2_counterexample :
    (LLM.normalize_answers (.jobj [("answers", .jobj [("A1", .jfloat (mkRat 17 10))]),
        ("justification", .jstr "")])).map (fun n => ansGet n.answers "A1") = .ok 1 ∧
      specCoerceValue (.jfloat (mkRat 17 10)) = 0 := by
  constructor
  · rfl
  · decide

/-- C2, amended: per question code, both normalizers read the value under the
code (defaulting a missing key to the integer 0, hence to answer 0) and
coerce it; the `llm_yesno_batch` coercion yields 1 exactly for boolean true,
an integer 1, a float whose truncation toward zero is 1 (so 1.7 → 1), or a
string trimming to "1"; the `gemini_yesno_batch` coercion yields 1 exactly
for boolean true, the integer 1, the float 1.0, or a string trimming to "1";
every other value, and a missing key, yields 0, and every coerced value is
0 or 1. -/
theorem claim_C2_amended (ans : List (String × JsonVal)) (just : JsonVal) (qid : String)
    (hq : qid ∈ QIDS) :
    ((LLM.normalize_answers (.jobj [("answers", .jobj ans), ("justification", just)])).map
        (fun n => ansGet n.answers qid) =
      .ok (LLM.coerceAnswer ((objGet ans qid).getD (.jint 0)))) ∧
    ansGet (Gem.normalize_answers
        (.jobj [("answers", .jobj ans), ("justification", just)])).answers qid =
      Gem.coerceAnswer ((objGet ans qid).getD (.jint 0)) ∧
    LLM.coerceAnswer (.jint 0) = 0 ∧ Gem.coerceAnswer (.jint 0) = 0 ∧
    (∀ v : JsonVal,
      (LLM.coerceAnswer v = 1 ↔
        v = .jbool true ∨ v = .jint 1 ∨
          (∃ q : ℚ, v = .jfloat q ∧ pytrunc q = 1) ∨
          (∃ s : String, v = .jstr s ∧ pyStrip s = "1")) ∧
      (LLM.coerceAnswer v = 0 ∨ LLM.coerceAnswer v = 1) ∧
      (Gem.coerceAnswer v = 1 ↔
        v = .jbool true ∨ v = .jint 1 ∨ v = .jfloat 1 ∨
          (∃ s : String, v = .jstr s ∧ pyStrip s = "1")) ∧
      (Gem.coerceAnswer v = 0 ∨ Gem.coerceAnswer v = 1)) := by
  have h1 : objGet [("answers", JsonVal.jobj ans), ("justification", just)] "answers" =
      some (.jobj ans) := by
    rw [objGet_cons]; simp
  have h2 : objGet [("answers", JsonVal.jobj ans), ("justification", just)] "justification" =
      some just := by
    rw [objGet_cons, objGet_cons]; simp
  refine ⟨?_, ?_, by decide, by decide, ?_⟩
  · simp only [LLM.normalize_answers, h1, h2, Option.isNone_some, Bool.or_self,
      Bool.false_eq_true, if_false, Except.map]
    rw [ansGet_map_of_mem _ _ _ hq]
  · simp only [Gem.normalize_answers, h1, h2]
    rw [ansGet_map_of_mem _ _ _ hq]
  · intro v
    refine ⟨?_, ?_, ?_, ?_⟩
    · cases v with
      | jbool b => cases b <;> simp [LLM.coerceAnswer]
      | jint n => by_cases h : n = 1 <;> simp [LLM.coerceAnswer, h]
      | jfloat q => by_cases h : pytrunc q = 1 <;> simp [LLM.coerceAnswer, h]
      | jstr s => by_cases h : pyStrip s = "1" <;> simp [LLM.coerceAnswer, h]
      | _ => simp [LLM.coerceAnswer]
    · cases v with
      | jbool b => cases b <;> simp [LLM.coerceAnswer]
      | jint n => by_cases h : n = 1 <;> simp [LLM.coerceAnswer, h]
      | jfloat q => by_cases h : pytrunc q = 1 <;> simp [LLM.coerceAnswer, h]
      | jstr s => by_cases h : pyStrip s = "1" <;> simp [LLM.coerceAnswer, h]
      | _ => simp [LLM.coerceAnswer]
    · cases v with
      | jnull =>
          have hv : Gem.coerceAnswer .jnull = 0 := by decide
          simp [hv]
      | jbool b =>
          cases b
          · have hv : Gem.coerceAnswer (.jbool false) = 0 := by decide
            simp [hv]
          · have hv : Gem.coerceAnswer (.jbool true) = 1 := by decide
            simp [hv]
      | jint n =>
          have hstrip : pyStrip (pyStr (JsonVal.jint n)) = toString n := by
            simpa [pyStr] using pyStrip_intToString n
          by_cases h : n = 1
          · subst h
            have hv : Gem.coerceAnswer (.jint 1) = 1 := by decide
            simp [hv]
          · have hne : (pyStrip (pyStr (JsonVal.jint n)) == "1") = false := by
              rw [hstrip]
              exact beq_eq_false_iff_ne.mpr (fun hc => h ((intToString_eq_one_iff n).mp hc))
            simp [Gem.coerceAnswer, Gem.pyEqOne, hne, h]
      | jfloat q =>
          have hne : (pyStrip (pyStr (JsonVal.jfloat q)) == "1") = false :=
            beq_eq_false_iff_ne.mpr (pyStrip_pyStr_jfloat_ne_one q)
          by_cases h : q = 1
          · subst h; simp [Gem.coerceAnswer, Gem.pyEqOne, hne]
          · simp [Gem.coerceAnswer, Gem.pyEqOne, hne, h]
      | jstr s =>
          by_cases h : pyStrip s = "1" <;> simp [Gem.coerceAnswer, Gem.pyEqOne, pyStr, h]
      | jarr xs =>
          have hne : (pyStrip (pyStr (JsonVal.jarr xs)) == "1") = false := by
            show (pyStrip "[...]" == "1") = false
            decide
          simp [Gem.coerceAnswer, Gem.pyEqOne, hne]
      | jobj kvs =>
          have hne : (pyStrip (pyStr (JsonVal.jobj kvs)) == "1") = false := by
            show (pyStrip "\x7b...\x7d" == "1") = false
            decide
          simp [Gem.coerceAnswer, Gem.pyEqOne, hne]
    · unfold Gem.coerceAnswer
      split_ifs <;> simp

/-- Witness for the amended C2 at a concrete instance (qid = "A1", a float
1.7 stored under "A1"). -/
theorem claim_C2_amended_witness :
    ((LLM.normalize_answers (.jobj [("answers", .jobj [("A1", .jfloat (mkRat 17 10))]),
        ("justification", .jstr "j")])).map (fun n => ansGet n.answers "A1") =
      .ok (LLM.coerceAnswer ((objGet [("A1", JsonVal.jfloat (mkRat 17 10))] "A1").getD
        (.jint 0)))) :=
  (claim_C2_amended [("A1", .jfloat (mkRat 17 10))] (.jstr "j") "A1" (by decide)).1

/-! ### Claim C3: normalizer shape errors -/

/-- The failure condition exactly as the claim states it (spec-side, for
comparison): the top-level value is not a mapping, or the answers field is
absent or not a mapping.  Justification is deliberately absent here. -/
def specShapeRejects : JsonVal → Bool
  | .jobj kvs =>
      match objGet kvs "answers" with
      | some (.jobj _) => false
      | _ => true
  | _ => true

/-- The failure condition of the llm normalizer as amended: additionally a
missing `justification` key is rejected. -/
def llmRejects : JsonVal → Bool
  | .jobj kvs =>
      (match objGet kvs "answers" with
       | some (.jobj _) => false
       | _ => true) || (objGet kvs "justification").isNone
  | _ => true

/-- C3, counterexample: `\x7b"answers": \x7b\x7d\x7d` passes the claimed shape
check (a mapping whose answers field is a mapping), yet
`llm_yesno_batch.normalize_answers` raises on it because `justification` is
missing; and the `gemini_yesno_batch` normalizer never fails at all — on a
non-mapping it quietly returns the all-zero Answer Set instead of a schema
error. -/
theorem claim_C3_counterexample :
    (LLM.normalize_answers (.jobj [("answers", .jobj [])])).isOk = false ∧
      specShapeRejects (.jobj [("answers", .jobj [])]) = false ∧
      Gem.normalize_answers (.jstr "not a mapping") = ⟨zeroAnswers, ""⟩ :=
  ⟨rfl, rfl, rfl⟩

/-- C3, amended: the llm normalizer fails exactly when the top level is not a
mapping, the answers field is absent or not a mapping, or the justification
key is absent; whenever both keys are present with answers a mapping it
succeeds, substituting the empty string for a non-string justification.  The
gemini normalizer is total: a non-mapping input yields the all-zero Answer
Set with empty justification, and a non-string justification is likewise
replaced by the empty string. -/
theorem claim_C3_amended (obj : JsonVal) :
    ((LLM.normalize_answers obj).isOk = false ↔ llmRejects obj = true) ∧
    (∀ kvs ans just, obj = .jobj kvs → objGet kvs "answers" = some (.jobj ans) →
      objGet kvs "justification" = some just →
      (LLM.normalize_answers obj).map (fun n => n.justification) =
        .ok (match just with | .jstr s => pyStrip s | _ => "")) ∧
    ((match obj with | .jobj _ => False | _ => True) →
      Gem.normalize_answers obj = ⟨zeroAnswers, ""⟩) ∧
    (∀ kvs, obj = .jobj kvs →
      (Gem.normalize_answers obj).justification =
        (match objGet kvs "justification" with | some (.jstr s) => pyStrip s | _ => "")) := by
  refine ⟨?_, ?_, ?_, ?_⟩
  · cases obj with
    | jobj kvs =>
      cases hA : objGet kvs "answers" with
      | none => simp [LLM.normalize_answers, llmRejects, hA, Except.isOk, Except.toBool]
      | some v =>
        cases hJ : objGet kvs "justification" with
        | none =>
          cases v <;> simp [LLM.normalize_answers, llmRejects, hA, hJ, Except.isOk, Except.toBool]
        | some j =>
          cases v <;> simp [LLM.normalize_answers, llmRejects, hA, hJ, Except.isOk, Except.toBool]
    | _ => simp [LLM.normalize_answers, llmRejects, Except.isOk, Except.toBool]
  · rintro kvs ans just rfl hA hJ
    cases just <;> simp [LLM.normalize_answers, hA, hJ, Except.map]
  · intro h
    cases obj with
    | jobj kvs => exact h.elim
    | jnull => rfl
    | jbool b => rfl
    | jint n => rfl
    | jfloat q => rfl
    | jstr s => rfl
    | jarr xs => rfl
  · rintro kvs rfl
    cases hA : objGet kvs "answers" with
    | none => simp [Gem.normalize_answers, hA]
    | some v => cases v <;> simp [Gem.normalize_answers, hA]

/-- Witness for the amended C3: a mapping with an empty answers mapping and a
null justification normalizes successfully with the empty justification. -/
theorem claim_C3_amended_witness :
    (LLM.normalize_answers (.jobj [("answers", .jobj []), ("justification", .jnull)])).map
        (fun n => n.justification) = .ok "" :=
  (claim_C3_amended (.jobj [("answers", .jobj []), ("justification", .jnull)])).2.1
    [("answers", .jobj []), ("justification", .jnull)] [] .jnull rfl rfl rfl

/-! ### Claim C4: OR-aggregation across chunks -/

/-- C4: in the chunked gemini adapter, for every question code the aggregated
final answer is 1 exactly when some chunk answered 1 for that code, and 0
exactly otherwise (a logical OR across chunks). -/
theorem claim_C4 (chunkAnswers : List (List (String × Int))) (chunkJusts : List String)
    (qid : String) (hq : qid ∈ QIDS) :
    (ansGet (aggregateChunks chunkAnswers chunkJusts).1 qid = 1 ↔
      ∃ a ∈ chunkAnswers, ansGet a qid = 1) ∧
    (ansGet (aggregateChunks chunkAnswers chunkJusts).1 qid = 0 ↔
      ¬ ∃ a ∈ chunkAnswers, ansGet a qid = 1) := by
  have hval : ansGet (aggregateChunks chunkAnswers chunkJusts).1 qid =
      if chunkAnswers.any (fun a => ansGet a qid == 1) then 1 else 0 := by
    show ansGet (QIDS.map (fun q =>
      (q, if chunkAnswers.any (fun a => ansGet a q == 1) then (1 : Int) else 0))) qid = _
    exact ansGet_map_of_mem QIDS _ qid hq
  rw [hval]
  by_cases h : chunkAnswers.any (fun a => ansGet a qid == 1)
  · rw [if_pos h]
    have h2 : ∃ a ∈ chunkAnswers, ansGet a qid = 1 := by simpa using h
    simp [h2]
  · rw [if_neg h]
    have h2 : ¬ ∃ a ∈ chunkAnswers, ansGet a qid = 1 := by simpa using h
    simp [h2]

/-- Witness: the specification example
`[\x7b"A1":1,"A2":0\x7d, \x7b"A1":0,"A2":0\x7d, \x7b"A1":0,"A2":1\x7d]`
aggregates to A1 = 1 and A2 = 1. -/
theorem claim_C4_witness :
    ansGet (aggregateChunks
      [[("A1", 1), ("A2", 0)], [("A1", 0), ("A2", 0)], [("A1", 0), ("A2", 1)]] []).1 "A1" = 1 ∧
    ansGet (aggregateChunks
      [[("A1", 1), ("A2", 0)], [("A1", 0), ("A2", 0)], [("A1", 0), ("A2", 1)]] []).1 "A2" = 1 := by
  constructor
  · exact (claim_C4 _ [] "A1" (by decide)).1.mpr ⟨[("A1", 1), ("A2", 0)], by simp, by decide⟩
  · exact (claim_C4 _ [] "A2" (by decide)).1.mpr ⟨[("A1", 0), ("A2", 1)], by simp, by decide⟩

/-! ### Claim C5: strict parsing with brace-region fallback -/

/-- C5: `parse_json_strict` first tries a direct `json.loads` on the stripped
text; when that fails it parses the substring from the first opening brace to
the last closing brace inclusive, provided the latter comes after the former;
when no such region exists (no opening brace, no closing brace, or the last
closing brace not after the first opening brace) the original decode error
propagates. -/
theorem claim_C5 (text : String) :
    (∀ v, pyJsonLoads (pyStrip text) = .ok v → parse_json_strict text = .ok v) ∧
    (∀ e i j, pyJsonLoads (pyStrip text) = .error e →
      pyFindChar (pyStrip text) '{' = some i →
      pyRFindChar (pyStrip text) '}' = some j → i < j →
      parse_json_strict text = pyJsonLoads (pySlice (pyStrip text) i (j + 1))) ∧
    (∀ e, pyJsonLoads (pyStrip text) = .error e →
      (pyFindChar (pyStrip text) '{' = none ∨ pyRFindChar (pyStrip text) '}' = none ∨
        (∃ i j, pyFindChar (pyStrip text) '{' = some i ∧
          pyRFindChar (pyStrip text) '}' = some j ∧ ¬ i < j)) →
      parse_json_strict text = .error e) := by
  refine ⟨?_, ?_, ?_⟩
  · intro v h
    simp [parse_json_strict, h]
  · intro e i j he hf hr hij
    simp [parse_json_strict, he, hf, hr, hij]
  · intro e he hcond
    rcases hcond with h1 | h1 | ⟨i, j, hf, hr, hij⟩
    · cases hr : pyRFindChar (pyStrip text) '}' <;>
        simp [parse_json_strict, he, h1, hr]
    · cases hf : pyFindChar (pyStrip text) '{' <;>
        simp [parse_json_strict, he, h1, hf]
    · simp [parse_json_strict, he, hf, hr, hij]

/-- The specification example of a prose-wrapped response. -/
def exampleWrappedResponse : String :=
  "Here is the result: \x7b\"answers\": \x7b\"A1\": 1\x7d, \"justification\": \"x\"\x7d thanks"

/-- Witness: the prose-wrapped example parses by extracting the region from
the first opening brace (index 20) to the last closing brace (index 63). -/
theorem claim_C5_witness :
    parse_json_strict exampleWrappedResponse =
      .ok (.jobj [("answers", .jobj [("A1", .jint 1)]), ("justification", .jstr "x")]) := by
  have h := (claim_C5 exampleWrappedResponse).2.1 "JSONDecodeError: Expecting value" 20 63
    (by rfl) (by rfl) (by rfl) (by decide)
  rw [h]
  rfl

/-! ### Claim C9: justification aggregation across chunks -/

/-- Justification aggregation exactly as the claim states it (spec-side, for
comparison): concatenate the justification texts of at most the first two
chunks whose ANSWERS were non-trivial (some code answered 1). -/
def specJustAggregate (chunks : List (List (String × Int) × String)) : String :=
  String.intercalate "\n\n"
    (((chunks.filter (fun c => c.1.any (fun p => p.2 == 1))).map (fun c => c.2)).take 2)

/-- C9, counterexample: with a first chunk answering all-zero but giving a
justification, the code concatenates the justifications of the first two
chunks with NON-EMPTY JUSTIFICATION TEXT ("J1", "J2"), while the claim asks
for the first two chunks with non-trivial ANSWERS ("J2", "J3"). -/
theorem claim_C9_counterexample :
    (aggregateChunks [[("A1", 0)], [("A1", 1)], [("A2", 1)]] ["J1", "J2", "J3"]).2 =
        "J1\n\nJ2" ∧
      specJustAggregate [([("A1", 0)], "J1"), ([("A1", 1)], "J2"), ([("A2", 1)], "J3")] =
        "J2\n\nJ3" ∧
      ("J1\n\nJ2" : String) ≠ "J2\n\nJ3" :=
  ⟨rfl, rfl, by decide⟩

/-- C9, amended: the aggregated justification is the stripped concatenation
(separated by blank lines) of the justification texts of at most the first
two chunks whose justification text is non-empty; the answers play no role. -/
theorem claim_C9_amended (chunkAnswers : List (List (String × Int)))
    (chunkJusts : List String) :
    (aggregateChunks chunkAnswers chunkJusts).2 =
      pyStrip (String.intercalate "\n\n" ((chunkJusts.filter (fun j => j ≠ "")).take 2)) := by
  show pyStrip (String.intercalate "\n\n"
      (if (chunkJusts.filter (fun j => j ≠ "")).length > 2
       then (chunkJusts.filter (fun j => j ≠ "")).take 2
       else chunkJusts.filter (fun j => j ≠ ""))) = _
  by_cases h : (chunkJusts.filter (fun j => j ≠ "")).length > 2
  · rw [if_pos h]
  · rw [if_neg h]
    congr 2
    exact (List.take_of_length_le (by omega)).symm

/-! ### Claim C10: the empty article produces zero chunks and a zero-call
success -/

/-- A concrete configuration for the C10 run (gemini provider through the
chunked adapter, `also_store` disabled). -/
def c10Args : LLM.Args :=
  ⟨"gemini", "m", "id", "text", "", 3, false, [], [], false⟩

/-- C10: the character chunker maps the empty text to zero chunks; the
chunked adapter therefore returns, for EVERY oracle (hence without any
service call), the all-zero Answer Set with empty justification; and the
driver records the empty-text article as a success with a null error. -/
theorem claim_C10 :
    chunk_text_by_chars "" 12000 = [] ∧
    (∀ oracle : Nat → String → Except String String,
      call_gemini oracle (build_user_prompt "") = .ok (dumpsResult zeroAnswers "")) ∧
    (∀ oracle : Nat → String → Except String String,
      LLM.run c10Args (fun _ p => call_gemini oracle p) []
          [[("id", .jstr "a1"), ("text", .jstr "")]] =
        ([[("custom_id", .jstr "a1"), ("provider", .jstr "gemini"), ("model", .jstr "m"),
           ("raw", .jstr (dumpsResult zeroAnswers "")),
           ("answers", .jobj (zeroAnswers.map (fun p => (p.1, .jint p.2)))),
           ("justification", .jstr ""), ("error", .jnull)]], none)) := by
  refine ⟨rfl, fun oracle => rfl, fun oracle => rfl⟩

/-! ### Run-driver lemmas -/

/-- Map/filter exchange along an extraction function. -/
theorem map_filter_comm {α β : Type} (f : α → β) (p : β → Bool) (l : List α) :
    (l.filter (fun a => p (f a))).map f = (l.map f).filter p := by
  induction l with
  | nil => rfl
  | cons a t ih => by_cases h : p (f a) <;> simp [List.filter_cons, h, ih]

/-- Answer Sets in the shape every written record carries: keys exactly
`QIDS` in order, values 0 or 1. -/
def wfAnswers (ans : List (String × Int)) : Prop :=
  ans.map Prod.fst = QIDS ∧ ∀ p ∈ ans, p.2 = 0 ∨ p.2 = 1

theorem wfAnswers_map (f : String → Int) (hf : ∀ q, f q = 0 ∨ f q = 1) :
    wfAnswers (QIDS.map (fun q => (q, f q))) := by
  constructor
  · rw [List.map_map]; rfl
  · intro p hp
    rcases List.mem_map.mp hp with ⟨q, _, rfl⟩
    exact hf q

theorem wfAnswers_zero : wfAnswers zeroAnswers :=
  wfAnswers_map (fun _ => 0) (fun _ => Or.inl rfl)

theorem coerceLLM_zero_or_one (v : JsonVal) :
    LLM.coerceAnswer v = 0 ∨ LLM.coerceAnswer v = 1 := by
  cases v <;> simp [LLM.coerceAnswer] <;> tauto

theorem coerceGem_zero_or_one (v : JsonVal) :
    Gem.coerceAnswer v = 0 ∨ Gem.coerceAnswer v = 1 := by
  unfold Gem.coerceAnswer
  split_ifs <;> simp

/-- Whatever the llm normalizer accepts is a well-formed Answer Set. -/
theorem normalize_llm_wf (obj : JsonVal) (norm : Norm)
    (h : LLM.normalize_answers obj = .ok norm) : wfAnswers norm.answers := by
  cases obj with
  | jobj kvs =>
    by_cases hc : (objGet kvs "answers").isNone || (objGet kvs "justification").isNone
    · rw [LLM.normalize_answers, if_pos hc] at h
      exact absurd h (by simp)
    · rw [LLM.normalize_answers, if_neg hc] at h
      cases hA : objGet kvs "answers" with
      | none => rw [hA] at h; exact absurd h (by simp)
      | some v =>
        rw [hA] at h
        cases v with
        | jobj ans =>
          injection h with h2
          rw [← h2]
          exact wfAnswers_map _ (fun q => coerceLLM_zero_or_one _)
        | jnull => exact absurd h (by simp)
        | jbool b => exact absurd h (by simp)
        | jint n => exact absurd h (by simp)
        | jfloat q => exact absurd h (by simp)
        | jstr s => exact absurd h (by simp)
        | jarr xs => exact absurd h (by simp)
  | jnull => exact absurd h (by simp [LLM.normalize_answers])
  | jbool b => exact absurd h (by simp [LLM.normalize_answers])
  | jint n => exact absurd h (by simp [LLM.normalize_answers])
  | jfloat q => exact absurd h (by simp [LLM.normalize_answers])
  | jstr s => exact absurd h (by simp [LLM.normalize_answers])
  | jarr xs => exact absurd h (by simp [LLM.normalize_answers])

/-- The gemini normalizer always yields a well-formed Answer Set. -/
theorem normalize_gem_wf (obj : JsonVal) :
    wfAnswers (Gem.normalize_answers obj).answers := by
  cases obj with
  | jobj kvs =>
    cases hA : objGet kvs "answers" with
    | none => simp [Gem.normalize_answers, hA, wfAnswers_zero]
    | some v =>
      cases v with
      | jobj ans =>
        simp only [Gem.normalize_answers, hA]
        exact wfAnswers_map _ (fun q => coerceGem_zero_or_one _)
      | _ => simp [Gem.normalize_answers, hA, wfAnswers_zero]
  | _ => exact wfAnswers_zero

namespace LLM

/-- Whether the loop writes a record for a row: neither skipped nor dry-run
(the abort case is handled separately). -/
def writes (args : Args) (done : List String) (row : List (String × JsonVal)) : Bool :=
  !(skips args done (getArticleId args.idField row)) && !args.dryRun

/-- The record the loop writes for a (non-skipped) row. -/
def recordFor (args : Args) (callProv : Nat → String → Except String String)
    (row : List (String × JsonVal)) : List (String × JsonVal) :=
  outRow args (getArticleId args.idField row) row
    (attemptLoop callProv (build_user_prompt (getArticleText args.textField row)) 1
      args.maxRetries none none)

/-- The processing loop, on an input whose rows all carry non-empty ids,
writes exactly the records of the non-skipped rows, in order, and does not
abort. -/
theorem runAux_eq (args : Args) (callProv : Nat → String → Except String String)
    (done : List String) (rows : List (List (String × JsonVal)))
    (h : ∀ r ∈ rows, getArticleId args.idField r ≠ "") :
    runAux args callProv done rows =
      ((rows.filter (writes args done)).map (recordFor args callProv), none) := by
  induction rows with
  | nil => rfl
  | cons row rest ih =>
    have hid : getArticleId args.idField row ≠ "" := h row (by simp)
    have hrest : ∀ r ∈ rest, getArticleId args.idField r ≠ "" :=
      fun r hr => h r (by simp [hr])
    rw [runAux, if_neg hid]
    by_cases hskip : skips args done (getArticleId args.idField row) = true
    · rw [if_pos hskip, ih hrest]
      have hw : writes args done row = false := by simp [writes, hskip]
      rw [List.filter_cons_of_neg (by simp [hw])]
    · rw [if_neg (by simp [hskip])]
      by_cases hdry : args.dryRun = true
      · rw [if_pos hdry, ih hrest]
        have hw : writes args done row = false := by simp [writes, hdry]
        rw [List.filter_cons_of_neg (by simp [hw])]
      · rw [if_neg (by simp [hdry])]
        have hdryf : args.dryRun = false := by simpa using hdry
        have hw : writes args done row = true := by
          simp [writes, hskip, hdryf]
        rw [List.filter_cons_of_pos (by simp [hw]), ih hrest]
        rfl

/-- With a provider that raises on every attempt, the retry loop makes
exactly the requested number of calls, parses nothing, keeps the incoming
raw text (none), and records the error of the final attempt. -/
theorem attemptLoop_allError (call : Nat → String → Except String String)
    (errf : Nat → String → String) (prompt : String)
    (hcall : ∀ i p, call i p = .error (errf i p)) :
    ∀ (n a : Nat) (raw le : Option String), 1 ≤ n →
      attemptLoop call prompt a n raw le =
        ⟨none, some (errf (a + n - 1) prompt), raw, n⟩ := by
  intro n
  induction n with
  | zero => intro a raw le h; omega
  | succ n ih =>
    intro a raw le _
    simp only [attemptLoop, hcall a prompt]
    by_cases hn : n = 0
    · subst hn
      simp only [attemptLoop]
      simp
    · rw [ih (a + 1) raw (some (errf a prompt)) (by omega)]
      have heq : a + 1 + n - 1 = a + (n + 1) - 1 := by omega
      rw [heq]

/-- A successful retry loop got its parse from `parse_json_strict` plus the
normalizer, and cleared the last error. -/
theorem attemptLoop_parsed (call : Nat → String → Except String String) (prompt : String) :
    ∀ (n a : Nat) (raw le : Option String) (p : Norm),
      (attemptLoop call prompt a n raw le).parsed = some p →
      (attemptLoop call prompt a n raw le).lastErr = none ∧
        ∃ rawText, (attemptLoop call prompt a n raw le).raw = some rawText ∧
          (parse_json_strict rawText >>= normalize_answers) = .ok p := by
  intro n
  induction n with
  | zero => intro a raw le p h; exact absurd h (by simp [attemptLoop])
  | succ n ih =>
    intro a raw le p h
    simp only [attemptLoop] at h ⊢
    cases hc : call a prompt with
    | error e =>
      simp only [hc] at h ⊢
      exact ih (a + 1) raw (some e) p h
    | ok rawText =>
      simp only [hc] at h ⊢
      cases hp : parse_json_strict rawText >>= normalize_answers with
      | ok parsed =>
        simp only [hp] at h ⊢
        injection h with h2
        subst h2
        exact ⟨trivial, rawText, rfl, hp⟩
      | error e =>
        simp only [hp] at h ⊢
        exact ih (a + 1) (some rawText) (some e) p h

/-- The fixed keys of an llm output row, in insertion order. -/
def llmBaseKeys : List String :=
  ["custom_id", "provider", "model", "raw", "answers", "justification", "error"]

/-- Keys of a written record: the seven fixed keys plus the `also_store`
field when enabled (and not colliding with a fixed key). -/
theorem outRow_keys (args : Args) (articleId : String) (row : List (String × JsonVal))
    (r : AttemptResult) (halso : args.alsoStore = "" ∨ args.alsoStore ∉ llmBaseKeys) :
    (outRow args articleId row r).map Prod.fst =
      llmBaseKeys ++ (if args.alsoStore = "" then [] else [args.alsoStore]) := by
  unfold outRow
  by_cases h : args.alsoStore = ""
  · rw [if_neg (by simp [h]), if_pos h, List.append_nil]
    rfl
  · rcases halso with h1 | h1
    · exact absurd h1 h
    · rw [if_pos h, if_neg h]
      exact keys_dictInsert_not_mem _ _ _ (by simpa [llmBaseKeys] using h1)

/-- Lookup of a fixed field is unaffected by the `also_store` insertion as
long as the configured extra field has a different name. -/
theorem outRow_objGet (args : Args) (articleId : String) (row : List (String × JsonVal))
    (r : AttemptResult) (key : String) (hne : key ≠ args.alsoStore) :
    objGet (outRow args articleId row r) key =
      objGet [("custom_id", .jstr articleId),
        ("provider", .jstr args.provider),
        ("model", .jstr args.modelName),
        ("raw", match r.raw with | some s => .jstr s | none => .jnull),
        ("answers", .jobj (((match r.parsed with
          | some p => p.answers
          | none => zeroAnswers : List (String × Int))).map
            (fun p => (p.1, JsonVal.jint p.2)))),
        ("justification", .jstr (match r.parsed with | some p => p.justification | none => "")),
        ("error", match r.lastErr with | some e => .jstr e | none => .jnull)] key := by
  unfold outRow
  by_cases h : args.alsoStore = ""
  · rw [if_neg (by simp [h])]
  · rw [if_pos h]
    exact objGet_dictInsert_ne _ _ _ _ hne

end LLM

/-- A record with no id aborts the llm loop after the records of the
preceding rows and before any further record. -/
theorem LLM.runAux_abort (args : LLM.Args) (callProv : Nat → String → Except String String)
    (done : List String) (pre post : List (List (String × JsonVal)))
    (badRow : List (String × JsonVal))
    (hpre : ∀ r ∈ pre, getArticleId args.idField r ≠ "")
    (hbad : getArticleId args.idField badRow = "") :
    LLM.runAux args callProv done (pre ++ badRow :: post) =
      ((LLM.runAux args callProv done pre).1, some (missingIdMsg args.idField)) := by
  induction pre with
  | nil =>
    simp [LLM.runAux, hbad]
  | cons row rest ih =>
    have hid : getArticleId args.idField row ≠ "" := hpre row (by simp)
    have hrest : ∀ r ∈ rest, getArticleId args.idField r ≠ "" :=
      fun r hr => hpre r (by simp [hr])
    simp only [List.cons_append, LLM.runAux, if_neg hid]
    by_cases hskip : skips args done (getArticleId args.idField row) = true
    · simp only [if_pos hskip]
      exact ih hrest
    · simp only [if_neg hskip]
      by_cases hdry : args.dryRun = true
      · simp only [if_pos hdry]
        exact ih hrest
      · simp only [if_neg hdry, List.append_eq]
        rw [ih hrest]

namespace Gem

/-- The fixed keys of a gemini output row, in insertion order (no `raw`). -/
def gemBaseKeys : List String :=
  ["custom_id", "provider", "model", "answers", "justification", "error"]

/-- Whether the gemini loop writes a record for a row. -/
def writes (args : Args) (done : List String) (row : List (String × JsonVal)) : Bool :=
  !(args.resume && done.contains (getArticleId args.idField row)) && !args.dryRun

/-- The record the gemini loop writes for a row. -/
def recordFor (args : Args) (oracle : Nat → String → Except String String)
    (row : List (String × JsonVal)) : List (String × JsonVal) :=
  outRow args (getArticleId args.idField row) row
    (attemptLoop oracle (build_prompt (getArticleText args.textField row)) 1
      args.maxRetries none)

theorem gemRunAux_eq (args : Args) (oracle : Nat → String → Except String String)
    (done : List String) (rows : List (List (String × JsonVal)))
    (h : ∀ r ∈ rows, getArticleId args.idField r ≠ "") :
    runAux args oracle done rows =
      ((rows.filter (writes args done)).map (recordFor args oracle), none) := by
  induction rows with
  | nil => rfl
  | cons row rest ih =>
    have hid : getArticleId args.idField row ≠ "" := h row (by simp)
    have hrest : ∀ r ∈ rest, getArticleId args.idField r ≠ "" :=
      fun r hr => h r (by simp [hr])
    rw [runAux, if_neg hid]
    by_cases hskip : (args.resume && done.contains (getArticleId args.idField row)) = true
    · rw [if_pos hskip, ih hrest]
      have hw : writes args done row = false := by
        unfold writes
        rw [hskip]
        rfl
      rw [List.filter_cons_of_neg (by simp [hw])]
    · rw [if_neg hskip]
      have hb : (args.resume && done.contains (getArticleId args.idField row)) = false := by
        simpa using hskip
      by_cases hdry : args.dryRun = true
      · rw [if_pos hdry, ih hrest]
        have hw : writes args done row = false := by
          unfold writes
          rw [hdry]
          simp
        rw [List.filter_cons_of_neg (by simp [hw])]
      · rw [if_neg hdry]
        have hdryf : args.dryRun = false := by simpa using hdry
        have hw : writes args done row = true := by
          unfold writes
          rw [hb, hdryf]
          rfl
        rw [List.filter_cons_of_pos (by simp [hw]), ih hrest]
        rfl

/-- A record with no id aborts the gemini loop after the records of the
preceding rows and before any further record. -/
theorem gemRunAux_abort (args : Args) (oracle : Nat → String → Except String String)
    (done : List String) (pre post : List (List (String × JsonVal)))
    (badRow : List (String × JsonVal))
    (hpre : ∀ r ∈ pre, getArticleId args.idField r ≠ "")
    (hbad : getArticleId args.idField badRow = "") :
    runAux args oracle done (pre ++ badRow :: post) =
      ((runAux args oracle done pre).1, some (missingIdMsg args.idField)) := by
  induction pre with
  | nil =>
    simp [runAux, hbad]
  | cons row rest ih =>
    have hid : getArticleId args.idField row ≠ "" := hpre row (by simp)
    have hrest : ∀ r ∈ rest, getArticleId args.idField r ≠ "" :=
      fun r hr => hpre r (by simp [hr])
    simp only [List.cons_append, runAux, if_neg hid]
    by_cases hskip : (args.resume && done.contains (getArticleId args.idField row)) = true
    · simp only [if_pos hskip]
      exact ih hrest
    · simp only [if_neg hskip]
      by_cases hdry : args.dryRun = true
      · simp only [if_pos hdry]
        exact ih hrest
      · simp only [if_neg hdry, List.append_eq]
        rw [ih hrest]

/-- A successful gemini retry loop cleared the last error and got its parse
from the total normalizer on some decoded response. -/
theorem gemAttemptLoop_parsed (oracle : Nat → String → Except String String) (prompt : String) :
    ∀ (n a : Nat) (le : Option String) (p : Norm),
      (attemptLoop oracle prompt a n le).parsed = some p →
      (attemptLoop oracle prompt a n le).lastErr = none ∧
        ∃ obj, p = normalize_answers obj := by
  intro n
  induction n with
  | zero => intro a le p h; exact absurd h (by simp [attemptLoop])
  | succ n ih =>
    intro a le p h
    simp only [attemptLoop] at h ⊢
    cases hc : callService oracle a prompt with
    | error e =>
      simp only [hc] at h ⊢
      exact ih (a + 1) (some e) p h
    | ok rawText =>
      simp only [hc] at h ⊢
      cases hp : pyJsonLoads rawText with
      | ok obj =>
        simp only [hp] at h ⊢
        injection h with h2
        subst h2
        exact ⟨trivial, obj, rfl⟩
      | error e =>
        simp only [hp] at h ⊢
        exact ih (a + 1) (some e) p h

/-- With a service that raises on every attempt, the gemini retry loop makes
exactly the requested number of calls and records the final error. -/
theorem gemAttemptLoop_allError (oracle : Nat → String → Except String String)
    (errf : Nat → String → String) (prompt : String)
    (hcall : ∀ i p, oracle i p = .error (errf i p)) :
    ∀ (n a : Nat) (le : Option String), 1 ≤ n →
      attemptLoop oracle prompt a n le =
        ⟨none, some (errf (a + n - 1) prompt), none, n⟩ := by
  intro n
  induction n with
  | zero => intro a le h; omega
  | succ n ih =>
    intro a le _
    have hsvc : callService oracle a prompt = .error (errf a prompt) := by
      simp only [callService, hcall a prompt]
    simp only [attemptLoop, hsvc]
    by_cases hn : n = 0
    · subst hn
      simp only [attemptLoop]
      simp
    · rw [ih (a + 1) (some (errf a prompt)) (by omega)]
      have heq : a + 1 + n - 1 = a + (n + 1) - 1 := by omega
      rw [heq]

/-- Keys of a written gemini record. -/
theorem gemOutRow_keys (args : Args) (articleId : String) (row : List (String × JsonVal))
    (r : AttemptResult) (halso : args.alsoStore = "" ∨ args.alsoStore ∉ gemBaseKeys) :
    (outRow args articleId row r).map Prod.fst =
      gemBaseKeys ++ (if args.alsoStore = "" then [] else [args.alsoStore]) := by
  unfold outRow
  by_cases h : args.alsoStore = ""
  · rw [if_neg (by simp [h]), if_pos h, List.append_nil]
    rfl
  · rcases halso with h1 | h1
    · exact absurd h1 h
    · rw [if_pos h, if_neg h]
      exact keys_dictInsert_not_mem _ _ _ (by simpa [gemBaseKeys] using h1)

/-- Lookup of a fixed field is unaffected by the `also_store` insertion. -/
theorem gemOutRow_objGet (args : Args) (articleId : String) (row : List (String × JsonVal))
    (r : AttemptResult) (key : String) (hne : key ≠ args.alsoStore) :
    objGet (outRow args articleId row r) key =
      objGet [("custom_id", .jstr articleId),
        ("provider", .jstr "gemini"),
        ("model", .jstr args.modelName),
        ("answers", .jobj (((match r.parsed with
          | some p => p.answers
          | none => zeroAnswers : List (String × Int))).map
            (fun p => (p.1, JsonVal.jint p.2)))),
        ("justification", .jstr (match r.parsed with | some p => p.justification | none => "")),
        ("error", match r.lastErr with | some e => .jstr e | none => .jnull)] key := by
  unfold outRow
  by_cases h : args.alsoStore = ""
  · rw [if_neg (by simp [h])]
  · rw [if_pos h]
    exact objGet_dictInsert_ne _ _ _ _ hne

end Gem

/-! ### Claim C6: a missing id aborts the whole run -/

/-- C6: in both drivers, a record with a missing (or empty after stripping)
value under the configured id field aborts the entire run with a fatal
error: the run yields exactly the records of the rows before the bad one and
reports the abort, writing nothing for the bad row or any later row, whether
or not any filter would have skipped the bad row. -/
theorem claim_C6 (largs : LLM.Args) (gargs : Gem.Args)
    (callProv oracle : Nat → String → Except String String)
    (existL existG : List (List (String × JsonVal)))
    (preL postL preG postG : List (List (String × JsonVal)))
    (badL badG : List (String × JsonVal))
    (hpreL : ∀ r ∈ preL, getArticleId largs.idField r ≠ "")
    (hbadL : getArticleId largs.idField badL = "")
    (hpreG : ∀ r ∈ preG, getArticleId gargs.idField r ≠ "")
    (hbadG : getArticleId gargs.idField badG = "") :
    LLM.run largs callProv existL (preL ++ badL :: postL) =
      ((LLM.run largs callProv existL preL).1, some (missingIdMsg largs.idField)) ∧
    Gem.run gargs oracle existG (preG ++ badG :: postG) =
      ((Gem.run gargs oracle existG preG).1, some (missingIdMsg gargs.idField)) :=
  ⟨LLM.runAux_abort largs callProv _ preL postL badL hpreL hbadL,
   Gem.gemRunAux_abort gargs oracle _ preG postG badG hpreG hbadG⟩

/-- Witness: an input whose first record lacks the id field halts both
drivers before writing any output record. -/
theorem claim_C6_witness :
    LLM.run ⟨"openai", "m", "id", "text", "cnki_id", 3, false, [], [], false⟩
        (fun _ _ => .error "e") [] [[("text", .jstr "t")]] =
      ([], some (missingIdMsg "id")) ∧
    Gem.run ⟨"m", "id", "text", "cnki_id", 3, false, false⟩
        (fun _ _ => .error "e") [] [[("text", .jstr "t")]] =
      ([], some (missingIdMsg "id")) := by
  have h := claim_C6 ⟨"openai", "m", "id", "text", "cnki_id", 3, false, [], [], false⟩
    ⟨"m", "id", "text", "cnki_id", 3, false, false⟩
    (fun _ _ => .error "e") (fun _ _ => .error "e") [] [] [] [] [] []
    [("text", .jstr "t")] [("text", .jstr "t")] (by simp) rfl (by simp) rfl
  simpa using h

/-! ### Claim C1: one output record per non-skipped input record -/

/-- C1: with every id present, the llm driver never aborts and, against a
provider that raises on every attempt, writes exactly one record per
non-skipped input row, in input order: the degraded record with no parse, no
raw text, the last attempt's error, after exactly `max_retries` calls (part
iii); that record renders with the all-zero Answer Set, empty justification
and a non-null error string (part ii); and whenever a retry loop does parse
within the budget, the written record carries the parsed answers and
justification with a null error (part iv). -/
theorem claim_C1 (args : LLM.Args) (errf : Nat → String → String)
    (existing rows : List (List (String × JsonVal)))
    (gargs : Gem.Args) (gerrf : Nat → String → String)
    (existG rowsG : List (List (String × JsonVal)))
    (hids : ∀ r ∈ rows, getArticleId args.idField r ≠ "")
    (hretry : 1 ≤ args.maxRetries)
    (halso : args.alsoStore = "" ∨ args.alsoStore ∉ LLM.llmBaseKeys)
    (hidsG : ∀ r ∈ rowsG, getArticleId gargs.idField r ≠ "")
    (hretryG : 1 ≤ gargs.maxRetries) :
    (LLM.run args (fun i p => .error (errf i p)) existing rows =
      ((rows.filter (LLM.writes args
          (if args.resume then LLM.load_done_ids existing else []))).map (fun row =>
        LLM.outRow args (getArticleId args.idField row) row
          ⟨none, some (errf args.maxRetries
              (build_user_prompt (getArticleText args.textField row))), none,
            args.maxRetries⟩), none)) ∧
    (∀ (row : List (String × JsonVal)) (e : String),
      objGet (LLM.outRow args (getArticleId args.idField row) row
          ⟨none, some e, none, args.maxRetries⟩) "answers" =
          some (.jobj (zeroAnswers.map (fun p => (p.1, JsonVal.jint p.2)))) ∧
      objGet (LLM.outRow args (getArticleId args.idField row) row
          ⟨none, some e, none, args.maxRetries⟩) "justification" = some (.jstr "") ∧
      objGet (LLM.outRow args (getArticleId args.idField row) row
          ⟨none, some e, none, args.maxRetries⟩) "error" = some (.jstr e)) ∧
    (∀ prompt, (LLM.attemptLoop (fun i p => .error (errf i p)) prompt 1 args.maxRetries
        none none).calls = args.maxRetries) ∧
    (∀ (callProv : Nat → String → Except String String) (row : List (String × JsonVal))
        (p : Norm),
      (LLM.attemptLoop callProv (build_user_prompt (getArticleText args.textField row)) 1
          args.maxRetries none none).parsed = some p →
      objGet (LLM.recordFor args callProv row) "answers" =
          some (.jobj (p.answers.map (fun q => (q.1, JsonVal.jint q.2)))) ∧
      objGet (LLM.recordFor args callProv row) "justification" =
          some (.jstr p.justification) ∧
      objGet (LLM.recordFor args callProv row) "error" = some .jnull) ∧
    (Gem.run gargs (fun i p => .error (gerrf i p)) existG rowsG =
      ((rowsG.filter (Gem.writes gargs
          (if gargs.resume then Gem.load_done_ids existG else []))).map (fun row =>
        Gem.outRow gargs (getArticleId gargs.idField row) row
          ⟨none, some (gerrf gargs.maxRetries
              (Gem.build_prompt (getArticleText gargs.textField row))), none,
            gargs.maxRetries⟩), none)) := by
  have hne : ∀ key, key ∈ LLM.llmBaseKeys → key ≠ args.alsoStore := by
    intro key hk
    rcases halso with h | h
    · intro he
      rw [he, h] at hk
      exact absurd hk (by decide)
    · intro he
      exact h (he ▸ hk)
  have hall := LLM.attemptLoop_allError (fun i p => .error (errf i p)) errf
  refine ⟨?_, ?_, ?_, ?_, ?_⟩
  · rw [LLM.run, LLM.runAux_eq args _ _ rows hids]
    refine congrArg (fun l => (l, (none : Option String))) ?_
    refine List.map_congr_left ?_
    intro row hrow
    unfold LLM.recordFor
    rw [hall (build_user_prompt (getArticleText args.textField row)) (fun i p => rfl)
      args.maxRetries 1 none none hretry]
    have h1 : 1 + args.maxRetries - 1 = args.maxRetries := by omega
    rw [h1]
  · intro row e
    refine ⟨?_, ?_, ?_⟩
    · rw [LLM.outRow_objGet _ _ _ _ _ (hne "answers" (by decide))]
      rfl
    · rw [LLM.outRow_objGet _ _ _ _ _ (hne "justification" (by decide))]
      rfl
    · rw [LLM.outRow_objGet _ _ _ _ _ (hne "error" (by decide))]
      rfl
  · intro prompt
    rw [hall prompt (fun i p => rfl) args.maxRetries 1 none none hretry]
  · intro callProv row p hp
    obtain ⟨hle, rawText, hraw, hok⟩ :=
      LLM.attemptLoop_parsed callProv
        (build_user_prompt (getArticleText args.textField row)) args.maxRetries 1
        none none p hp
    refine ⟨?_, ?_, ?_⟩
    · unfold LLM.recordFor
      rw [LLM.outRow_objGet _ _ _ _ _ (hne "answers" (by decide))]
      rw [show objGet [("custom_id", JsonVal.jstr (getArticleId args.idField row)),
        ("provider", JsonVal.jstr args.provider),
        ("model", JsonVal.jstr args.modelName),
        ("raw", match (LLM.attemptLoop callProv
            (build_user_prompt (getArticleText args.textField row)) 1
            args.maxRetries none none).raw with
          | some s => JsonVal.jstr s
          | none => JsonVal.jnull),
        ("answers", JsonVal.jobj (((match (LLM.attemptLoop callProv
            (build_user_prompt (getArticleText args.textField row)) 1
            args.maxRetries none none).parsed with
          | some p => p.answers
          | none => zeroAnswers : List (String × Int))).map
            (fun p => (p.1, JsonVal.jint p.2)))),
        ("justification", JsonVal.jstr (match (LLM.attemptLoop callProv
            (build_user_prompt (getArticleText args.textField row)) 1
            args.maxRetries none none).parsed with
          | some p => p.justification
          | none => "")),
        ("error", match (LLM.attemptLoop callProv
            (build_user_prompt (getArticleText args.textField row)) 1
            args.maxRetries none none).lastErr with
          | some e => JsonVal.jstr e
          | none => JsonVal.jnull)] "answers" =
        some (JsonVal.jobj (((match (LLM.attemptLoop callProv
            (build_user_prompt (getArticleText args.textField row)) 1
            args.maxRetries none none).parsed with
          | some p => p.answers
          | none => zeroAnswers : List (String × Int))).map
            (fun p => (p.1, JsonVal.jint p.2)))) from rfl]
      rw [hp]
    · unfold LLM.recordFor
      rw [LLM.outRow_objGet _ _ _ _ _ (hne "justification" (by decide))]
      rw [show ∀ v4 v5 v7 : JsonVal, objGet [("custom_id", JsonVal.jstr (getArticleId args.idField row)),
        ("provider", JsonVal.jstr args.provider),
        ("model", JsonVal.jstr args.modelName),
        ("raw", v4), ("answers", v5),
        ("justification", JsonVal.jstr (match (LLM.attemptLoop callProv
            (build_user_prompt (getArticleText args.textField row)) 1
            args.maxRetries none none).parsed with
          | some p => p.justification
          | none => "")),
        ("error", v7)] "justification" =
        some (JsonVal.jstr (match (LLM.attemptLoop callProv
            (build_user_prompt (getArticleText args.textField row)) 1
            args.maxRetries none none).parsed with
          | some p => p.justification
          | none => "")) from fun _ _ _ => rfl]
      rw [hp]
    · unfold LLM.recordFor
      rw [LLM.outRow_objGet _ _ _ _ _ (hne "error" (by decide))]
      rw [show ∀ v4 v5 v6 : JsonVal, objGet [("custom_id", JsonVal.jstr (getArticleId args.idField row)),
        ("provider", JsonVal.jstr args.provider),
        ("model", JsonVal.jstr args.modelName),
        ("raw", v4), ("answers", v5), ("justification", v6),
        ("error", match (LLM.attemptLoop callProv
            (build_user_prompt (getArticleText args.textField row)) 1
            args.maxRetries none none).lastErr with
          | some e => JsonVal.jstr e
          | none => JsonVal.jnull)] "error" =
        some (match (LLM.attemptLoop callProv
            (build_user_prompt (getArticleText args.textField row)) 1
            args.maxRetries none none).lastErr with
          | some e => JsonVal.jstr e
          | none => JsonVal.jnull) from fun _ _ _ => rfl]
      rw [hle]
  · rw [Gem.run, Gem.gemRunAux_eq gargs _ _ rowsG hidsG]
    refine congrArg (fun l => (l, (none : Option String))) ?_
    refine List.map_congr_left ?_
    intro row _
    unfold Gem.recordFor
    rw [Gem.gemAttemptLoop_allError (fun i p => .error (gerrf i p)) gerrf
      (Gem.build_prompt (getArticleText gargs.textField row)) (fun i p => rfl)
      gargs.maxRetries 1 none hretryG]
    have h1 : 1 + gargs.maxRetries - 1 = gargs.maxRetries := by omega
    rw [h1]

/-- Witness for C1: a single-record input against an always-raising provider
with `max_retries = 2` writes exactly one degraded record, and the loop made
exactly 2 calls. -/
theorem claim_C1_witness :
    (LLM.run ⟨"openai", "m", "id", "text", "", 2, false, [], [], false⟩
        (fun i p => .error ((fun j (_ : String) => "boom" ++ toString j) i p)) []
        [[("id", .jstr "a1"), ("text", .jstr "t")]] =
      ([LLM.outRow ⟨"openai", "m", "id", "text", "", 2, false, [], [], false⟩ "a1"
          [("id", .jstr "a1"), ("text", .jstr "t")]
          ⟨none, some "boom2", none, 2⟩], none)) ∧
    (LLM.attemptLoop (fun i p => .error ((fun j (_ : String) => "boom" ++ toString j) i p))
        "p" 1 2 none none).calls = 2 := by
  have h := claim_C1 ⟨"openai", "m", "id", "text", "", 2, false, [], [], false⟩
    (fun j (_ : String) => "boom" ++ toString j) [] [[("id", .jstr "a1"), ("text", .jstr "t")]]
    ⟨"gm", "id", "text", "", 2, false, false⟩ (fun j (_ : String) => "gboom" ++ toString j)
    [] []
    (by decide) (by norm_num) (Or.inl rfl) (by simp) (by norm_num)
  exact ⟨h.1, h.2.2.1 "p"⟩

/-! ### Claim C7: resume produces no duplicate ids -/

theorem filterMap_all_some {α β : Type} (f : α → Option β) (g : α → β) (l : List α)
    (h : ∀ a ∈ l, f a = some (g a)) : l.filterMap f = l.map g := by
  induction l with
  | nil => rfl
  | cons a t ih =>
      rw [List.filterMap_cons, h a (by simp), List.map_cons,
        ih (fun x hx => h x (by simp [hx]))]

/-- Every written llm record carries its article id under `custom_id`. -/
theorem LLM.recordFor_custom_id (args : LLM.Args)
    (callProv : Nat → String → Except String String) (row : List (String × JsonVal))
    (halso : args.alsoStore ≠ "custom_id") :
    objGet (LLM.recordFor args callProv row) "custom_id" =
      some (.jstr (getArticleId args.idField row)) := by
  unfold LLM.recordFor
  rw [LLM.outRow_objGet _ _ _ _ _ (fun he => halso he.symm)]
  rfl

/-- C7: over an input with unique non-empty ids, a first full run starting
from an empty output followed by a resumed second run over the same input
and output yields no duplicate `custom_id` in the final output file. -/
theorem claim_C7 (args : LLM.Args) (or1 or2 : Nat → String → Except String String)
    (rows : List (List (String × JsonVal)))
    (halso : args.alsoStore ≠ "custom_id")
    (hids : ∀ r ∈ rows, getArticleId args.idField r ≠ "")
    (hnodup : (rows.map (getArticleId args.idField)).Nodup) :
    (((LLM.run args or1 [] rows).1 ++
      (LLM.run {args with resume := true} or2 ((LLM.run args or1 [] rows).1) rows).1).map
        (fun r => objGet r "custom_id")).Nodup := by
  have hdone1 : (if args.resume then LLM.load_done_ids [] else []) = [] := by
    cases args.resume <;> rfl
  have h1 : LLM.run args or1 [] rows =
      ((rows.filter (LLM.writes args [])).map (LLM.recordFor args or1), none) := by
    rw [LLM.run, hdone1, LLM.runAux_eq args or1 [] rows hids]
  have hcust1 : ∀ (orx : Nat → String → Except String String) (row : List (String × JsonVal)),
      objGet (LLM.recordFor args orx row) "custom_id" =
        some (.jstr (getArticleId args.idField row)) :=
    fun orx row => LLM.recordFor_custom_id args orx row halso
  have hdone2 : LLM.load_done_ids
      ((rows.filter (LLM.writes args [])).map (LLM.recordFor args or1)) =
      (rows.filter (LLM.writes args [])).map (getArticleId args.idField) := by
    unfold LLM.load_done_ids
    rw [List.filterMap_map]
    refine filterMap_all_some _ _ _ ?_
    intro r _
    show (objGet (LLM.recordFor args or1 r) "custom_id").map pyStr =
      some (getArticleId args.idField r)
    rw [hcust1 or1 r]
    rfl
  have hcust2 : ∀ (row : List (String × JsonVal)),
      objGet (LLM.recordFor {args with resume := true} or2 row) "custom_id" =
        some (.jstr (getArticleId args.idField row)) :=
    fun row => LLM.recordFor_custom_id {args with resume := true} or2 row halso
  have h2 : LLM.run {args with resume := true} or2
      ((rows.filter (LLM.writes args [])).map (LLM.recordFor args or1)) rows =
      ((rows.filter (LLM.writes {args with resume := true}
          ((rows.filter (LLM.writes args [])).map (getArticleId args.idField)))).map
        (LLM.recordFor {args with resume := true} or2), none) := by
    rw [LLM.run]
    have hif : (if ({args with resume := true} : LLM.Args).resume
        then LLM.load_done_ids
          ((rows.filter (LLM.writes args [])).map (LLM.recordFor args or1))
        else []) =
        (rows.filter (LLM.writes args [])).map (getArticleId args.idField) := by
      rw [if_pos rfl, hdone2]
    rw [hif]
    exact LLM.runAux_eq {args with resume := true} or2 _ rows hids
  rw [h1]
  rw [h2]
  simp only [List.map_append, List.map_map]
  have hc1 : (rows.filter (LLM.writes args [])).map
      ((fun r => objGet r "custom_id") ∘ LLM.recordFor args or1) =
      ((rows.filter (LLM.writes args [])).map (getArticleId args.idField)).map
        (fun s => some (JsonVal.jstr s)) := by
    rw [List.map_map]
    exact List.map_congr_left (fun r _ => hcust1 or1 r)
  have hc2 : (rows.filter (LLM.writes {args with resume := true}
      ((rows.filter (LLM.writes args [])).map (getArticleId args.idField)))).map
      ((fun r => objGet r "custom_id") ∘ LLM.recordFor {args with resume := true} or2) =
      ((rows.filter (LLM.writes {args with resume := true}
        ((rows.filter (LLM.writes args [])).map (getArticleId args.idField)))).map
          (getArticleId args.idField)).map (fun s => some (JsonVal.jstr s)) := by
    rw [List.map_map]
    exact List.map_congr_left (fun r _ => hcust2 r)
  rw [hc1, hc2, ← List.map_append]
  refine List.Nodup.map ?_ ?_
  · intro a b hab
    injection hab with hab2
    exact JsonVal.jstr.inj hab2
  · rw [List.nodup_append]
    have e1 : (List.filter (LLM.writes args []) rows).map (getArticleId args.idField) =
        (rows.map (getArticleId args.idField)).filter
          (fun x => !(LLM.skips args [] x) && !args.dryRun) :=
      map_filter_comm (getArticleId args.idField)
        (fun x => !(LLM.skips args [] x) && !args.dryRun) rows
    have e2 : (List.filter (LLM.writes {args with resume := true}
        ((rows.filter (LLM.writes args [])).map (getArticleId args.idField))) rows).map
        (getArticleId args.idField) =
        (rows.map (getArticleId args.idField)).filter
          (fun x => !(LLM.skips {args with resume := true}
            ((rows.filter (LLM.writes args [])).map (getArticleId args.idField)) x) &&
            !({args with resume := true} : LLM.Args).dryRun) :=
      map_filter_comm (getArticleId args.idField)
        (fun x => !(LLM.skips {args with resume := true}
          ((rows.filter (LLM.writes args [])).map (getArticleId args.idField)) x) &&
          !({args with resume := true} : LLM.Args).dryRun) rows
    have hA1 : ((rows.filter (LLM.writes args [])).map (getArticleId args.idField)).Nodup := by
      rw [e1]
      exact hnodup.filter _
    have hA2 : ((rows.filter (LLM.writes {args with resume := true}
        ((rows.filter (LLM.writes args [])).map (getArticleId args.idField)))).map
          (getArticleId args.idField)).Nodup := by
      rw [e2]
      exact hnodup.filter _
    refine ⟨hA1, hA2, ?_⟩
    intro x hx1 hx2
    rcases List.mem_map.mp hx2 with ⟨r, hr, hxr⟩
    have hw2 : LLM.writes {args with resume := true}
        ((rows.filter (LLM.writes args [])).map (getArticleId args.idField)) r = true :=
      (List.mem_filter.mp hr).2
    simp only [LLM.writes, Bool.and_eq_true, Bool.not_eq_true'] at hw2
    have hsk := hw2.1
    simp only [LLM.skips, Bool.or_eq_false_iff] at hsk
    have hcontains : ((rows.filter (LLM.writes args [])).map
        (getArticleId args.idField)).contains (getArticleId args.idField r) = false := by
      have h3 := hsk.2
      simpa using h3
    rw [← hxr] at hx1
    have hc3 : ((rows.filter (LLM.writes args [])).map
        (getArticleId args.idField)).contains (getArticleId args.idField r) = true :=
      List.elem_eq_true_of_mem hx1
    rw [hcontains] at hc3
    exact absurd hc3 (by simp)

/-- Witness for C7: two records with distinct ids, run twice with resume. -/
theorem claim_C7_witness :
    (((LLM.run ⟨"openai", "m", "id", "text", "cnki_id", 1, false, [], [], false⟩
        (fun _ _ => .error "e") []
        [[("id", .jstr "a1")], [("id", .jstr "a2")]]).1 ++
      (LLM.run {(⟨"openai", "m", "id", "text", "cnki_id", 1, false, [], [], false⟩ : LLM.Args)
          with resume := true}
        (fun _ _ => .error "e")
        ((LLM.run ⟨"openai", "m", "id", "text", "cnki_id", 1, false, [], [], false⟩
          (fun _ _ => .error "e") []
          [[("id", .jstr "a1")], [("id", .jstr "a2")]]).1)
        [[("id", .jstr "a1")], [("id", .jstr "a2")]]).1).map
        (fun r => objGet r "custom_id")).Nodup :=
  claim_C7 _ _ _ _ (by decide) (by decide) (by decide)

/-! ### Claim C8: output record shape -/

/-- C8, counterexample: the llm driver writes an extra `raw` key (the last
raw provider response, null on total failure), which the claimed key set
does not include. -/
theorem claim_C8_counterexample :
    ((LLM.run ⟨"openai", "m", "id", "text", "cnki_id", 1, false, [], [], false⟩
        (fun _ _ => .error "boom") [] [[("id", .jstr "a1")]]).1.map
      (fun r => r.map Prod.fst)) =
      [["custom_id", "provider", "model", "raw", "answers", "justification", "error",
        "cnki_id"]] ∧
    "raw" ∉ ["custom_id", "provider", "model", "answers", "justification", "error",
      "cnki_id"] :=
  ⟨rfl, by decide⟩

/-- Shape of one written llm record: fixed keys plus also-store, an Answer
Set over exactly the 20 codes with 0/1 values, a string justification, a
null-or-string error and a string custom id. -/
theorem LLM.recordFor_shape (args : LLM.Args)
    (callProv : Nat → String → Except String String) (row : List (String × JsonVal))
    (hne : ∀ key, key ∈ LLM.llmBaseKeys → key ≠ args.alsoStore)
    (halso : args.alsoStore = "" ∨ args.alsoStore ∉ LLM.llmBaseKeys) :
    (LLM.recordFor args callProv row).map Prod.fst =
      LLM.llmBaseKeys ++ (if args.alsoStore = "" then [] else [args.alsoStore]) ∧
    (∃ ans, objGet (LLM.recordFor args callProv row) "answers" =
        some (.jobj (ans.map (fun p => (p.1, JsonVal.jint p.2)))) ∧ wfAnswers ans) ∧
    (∃ j, objGet (LLM.recordFor args callProv row) "justification" = some (.jstr j)) ∧
    (objGet (LLM.recordFor args callProv row) "error" = some .jnull ∨
      ∃ e, objGet (LLM.recordFor args callProv row) "error" = some (.jstr e)) ∧
    (∃ cid, objGet (LLM.recordFor args callProv row) "custom_id" = some (.jstr cid)) := by
  unfold LLM.recordFor
  generalize hR : LLM.attemptLoop callProv
    (build_user_prompt (getArticleText args.textField row)) 1 args.maxRetries
    none none = r
  refine ⟨LLM.outRow_keys args _ row r halso, ?_, ?_, ?_, ?_⟩
  · rw [LLM.outRow_objGet args _ row r "answers" (hne "answers" (by decide))]
    cases hp : r.parsed with
    | some p =>
      refine ⟨p.answers, rfl, ?_⟩
      · obtain ⟨_, rawText, _, hok⟩ :=
          LLM.attemptLoop_parsed callProv
            (build_user_prompt (getArticleText args.textField row)) args.maxRetries 1
            none none p (by rw [hR]; exact hp)
        cases hps : parse_json_strict rawText with
        | error e =>
          rw [hps] at hok
          exact absurd hok (by simp [Bind.bind, Except.bind])
        | ok obj =>
          rw [hps] at hok
          exact normalize_llm_wf obj p (by simpa [Bind.bind, Except.bind] using hok)
    | none => exact ⟨zeroAnswers, rfl, wfAnswers_zero⟩
  · rw [LLM.outRow_objGet args _ row r "justification" (hne "justification" (by decide))]
    exact ⟨_, rfl⟩
  · rw [LLM.outRow_objGet args _ row r "error" (hne "error" (by decide))]
    cases hle : r.lastErr with
    | none => exact Or.inl rfl
    | some e => exact Or.inr ⟨e, rfl⟩
  · rw [LLM.outRow_objGet args _ row r "custom_id" (hne "custom_id" (by decide))]
    exact ⟨_, rfl⟩

/-- Shape of one written gemini record. -/
theorem Gem.gemRecordFor_shape (args : Gem.Args)
    (oracle : Nat → String → Except String String) (row : List (String × JsonVal))
    (hne : ∀ key, key ∈ Gem.gemBaseKeys → key ≠ args.alsoStore)
    (halso : args.alsoStore = "" ∨ args.alsoStore ∉ Gem.gemBaseKeys) :
    (Gem.recordFor args oracle row).map Prod.fst =
      Gem.gemBaseKeys ++ (if args.alsoStore = "" then [] else [args.alsoStore]) ∧
    (∃ ans, objGet (Gem.recordFor args oracle row) "answers" =
        some (.jobj (ans.map (fun p => (p.1, JsonVal.jint p.2)))) ∧ wfAnswers ans) ∧
    (∃ j, objGet (Gem.recordFor args oracle row) "justification" = some (.jstr j)) ∧
    (objGet (Gem.recordFor args oracle row) "error" = some .jnull ∨
      ∃ e, objGet (Gem.recordFor args oracle row) "error" = some (.jstr e)) ∧
    (∃ cid, objGet (Gem.recordFor args oracle row) "custom_id" = some (.jstr cid)) := by
  unfold Gem.recordFor
  generalize hR : Gem.attemptLoop oracle
    (Gem.build_prompt (getArticleText args.textField row)) 1 args.maxRetries none = r
  refine ⟨Gem.gemOutRow_keys args _ row r halso, ?_, ?_, ?_, ?_⟩
  · rw [Gem.gemOutRow_objGet args _ row r "answers" (hne "answers" (by decide))]
    cases hp : r.parsed with
    | some p =>
      refine ⟨p.answers, rfl, ?_⟩
      · obtain ⟨_, obj, hobj⟩ :=
          Gem.gemAttemptLoop_parsed oracle
            (Gem.build_prompt (getArticleText args.textField row)) args.maxRetries 1
            none p (by rw [hR]; exact hp)
        rw [hobj]
        exact normalize_gem_wf obj
    | none => exact ⟨zeroAnswers, rfl, wfAnswers_zero⟩
  · rw [Gem.gemOutRow_objGet args _ row r "justification" (hne "justification" (by decide))]
    exact ⟨_, rfl⟩
  · rw [Gem.gemOutRow_objGet args _ row r "error" (hne "error" (by decide))]
    cases hle : r.lastErr with
    | none => exact Or.inl rfl
    | some e => exact Or.inr ⟨e, rfl⟩
  · rw [Gem.gemOutRow_objGet args _ row r "custom_id" (hne "custom_id" (by decide))]
    exact ⟨_, rfl⟩

/-- C8, amended: every line the llm driver writes has exactly the keys
`custom_id, provider, model, raw, answers, justification, error` plus the
configured also-store field when enabled, in that order; the gemini driver
omits `raw` and matches the claimed key set.  In both, the answers field
maps exactly the 20 question codes to 0/1 values, the justification is a
string, the error is null or a string, and `custom_id` is a string. -/
theorem claim_C8_amended (largs : LLM.Args) (gargs : Gem.Args)
    (callProv oracle : Nat → String → Except String String)
    (existL existG rowsL rowsG : List (List (String × JsonVal)))
    (hidsL : ∀ r ∈ rowsL, getArticleId largs.idField r ≠ "")
    (hidsG : ∀ r ∈ rowsG, getArticleId gargs.idField r ≠ "")
    (halsoL : largs.alsoStore = "" ∨ largs.alsoStore ∉ LLM.llmBaseKeys)
    (halsoG : gargs.alsoStore = "" ∨ gargs.alsoStore ∉ Gem.gemBaseKeys) :
    (∀ out ∈ (LLM.run largs callProv existL rowsL).1,
      out.map Prod.fst =
        LLM.llmBaseKeys ++ (if largs.alsoStore = "" then [] else [largs.alsoStore]) ∧
      (∃ ans, objGet out "answers" =
          some (.jobj (ans.map (fun p => (p.1, JsonVal.jint p.2)))) ∧ wfAnswers ans) ∧
      (∃ j, objGet out "justification" = some (.jstr j)) ∧
      (objGet out "error" = some .jnull ∨ ∃ e, objGet out "error" = some (.jstr e)) ∧
      (∃ cid, objGet out "custom_id" = some (.jstr cid))) ∧
    (∀ out ∈ (Gem.run gargs oracle existG rowsG).1,
      out.map Prod.fst =
        Gem.gemBaseKeys ++ (if gargs.alsoStore = "" then [] else [gargs.alsoStore]) ∧
      (∃ ans, objGet out "answers" =
          some (.jobj (ans.map (fun p => (p.1, JsonVal.jint p.2)))) ∧ wfAnswers ans) ∧
      (∃ j, objGet out "justification" = some (.jstr j)) ∧
      (objGet out "error" = some .jnull ∨ ∃ e, objGet out "error" = some (.jstr e)) ∧
      (∃ cid, objGet out "custom_id" = some (.jstr cid))) := by
  have hneL : ∀ key, key ∈ LLM.llmBaseKeys → key ≠ largs.alsoStore := by
    intro key hk
    rcases halsoL with h | h
    · intro he
      rw [he, h] at hk
      exact absurd hk (by decide)
    · intro he
      exact h (he ▸ hk)
  have hneG : ∀ key, key ∈ Gem.gemBaseKeys → key ≠ gargs.alsoStore := by
    intro key hk
    rcases halsoG with h | h
    · intro he
      rw [he, h] at hk
      exact absurd hk (by decide)
    · intro he
      exact h (he ▸ hk)
  constructor
  · intro out hout
    rw [LLM.run, LLM.runAux_eq largs callProv _ rowsL hidsL] at hout
    rcases List.mem_map.mp hout with ⟨row, _, rfl⟩
    exact LLM.recordFor_shape largs callProv row hneL halsoL
  · intro out hout
    rw [Gem.run, Gem.gemRunAux_eq gargs oracle _ rowsG hidsG] at hout
    rcases List.mem_map.mp hout with ⟨row, _, rfl⟩
    exact Gem.gemRecordFor_shape gargs oracle row hneG halsoG

/-- Witness for the amended C8: the record written for a one-row input
carries exactly the llm key list with `cnki_id` appended. -/
theorem claim_C8_amended_witness :
    (LLM.recordFor ⟨"openai", "m", "id", "text", "cnki_id", 1, false, [], [], false⟩
        (fun _ _ => .error "boom") [("id", JsonVal.jstr "a1")]).map Prod.fst =
      LLM.llmBaseKeys ++ ["cnki_id"] := by
  have hmem : LLM.recordFor ⟨"openai", "m", "id", "text", "cnki_id", 1, false, [], [], false⟩
      (fun _ _ => .error "boom") [("id", JsonVal.jstr "a1")] ∈
      (LLM.run ⟨"openai", "m", "id", "text", "cnki_id", 1, false, [], [], false⟩
        (fun _ _ => .error "boom") [] [[("id", JsonVal.jstr "a1")]]).1 := by
    show LLM.recordFor ⟨"openai", "m", "id", "text", "cnki_id", 1, false, [], [], false⟩
        (fun _ _ => .error "boom") [("id", JsonVal.jstr "a1")] ∈
      [LLM.recordFor ⟨"openai", "m", "id", "text", "cnki_id", 1, false, [], [], false⟩
        (fun _ _ => .error "boom") [("id", JsonVal.jstr "a1")]]
    exact List.mem_singleton.mpr rfl
  have h := (claim_C8_amended ⟨"openai", "m", "id", "text", "cnki_id", 1, false, [], [], false⟩
    ⟨"gm", "id", "text", "", 1, false, false⟩ (fun _ _ => .error "boom")
    (fun _ _ => .error "boom") [] [] [[("id", JsonVal.jstr "a1")]] []
    (by decide) (by simp) (Or.inr (by decide)) (Or.inl rfl)).1 _ hmem
  exact h.1

end YesNoBatch
